import Mathlib

/-!
cellmata: the two Go cellular-automaton programs.

A shallow embedding of `game_of_life-go/single.go` (Conway's Game of Life on a
10 x 10 board) and `game_of_life-go/rule30.go` (a one-dimensional automaton on a
1 x 100 board), followed by theorems about the embedded functions.

* Go `int` is the 64-bit two's-complement integer: values are `Int`, and every
  `+` and unary `-` of the source goes through `wrapInt`.
* Go `%` is the truncated remainder, `Int.tmod`.
* `Board` is `*[WIDTH][HEIGHT]bool`: a pointer to an array.  The two arrays that
  `main` allocates live in a two-cell heap, and `current` / `next` are
  references into it, so that `flipBoards` exchanges references and a write
  through `next` is visible through every reference to the same array.
* Indexing an array out of range panics in Go: reads and writes return `Option`.
-/

namespace Cellmata

/-! ## Machine integers -/

/-- Two's-complement wrap of an integer into the range of Go's 64-bit `int`. -/
def wrapInt (z : Int) : Int := (z + 2 ^ 63) % 2 ^ 64 - 2 ^ 63

/-- The values of Go's 64-bit `int`. -/
def IsInt64 (z : Int) : Prop := -(2 ^ 63) ≤ z ∧ z < 2 ^ 63

instance (z : Int) : Decidable (IsInt64 z) := by unfold IsInt64; infer_instance

/-- Go `a + b` on `int`. -/
def goAdd (a b : Int) : Int := wrapInt (a + b)

/-- Go `a - b` on `int`. -/
def goSub (a b : Int) : Int := wrapInt (a - b)

/-- Go unary `-a` on `int`. -/
def goNeg (a : Int) : Int := wrapInt (-a)

/-- Go `a % b` on `int`: the remainder of the division truncated toward zero. -/
def goRem (a b : Int) : Int := Int.tmod a b

/-- The function `abs` of both programs. -/
def abs (x : Int) : Int :=
  if x < 0 then goNeg x else x

/-! ## Boards and the two-array heap -/

/-- An array `[W][H]bool`. -/
abbrev Grid (W H : Nat) := Fin W → Fin H → Bool

/-- Bounds check of an array index: `none` is Go's index-out-of-range panic. -/
def index? (n : Nat) (i : Int) : Option (Fin n) :=
  if h : 0 ≤ i ∧ i < (n : Int) then some ⟨i.toNat, by omega⟩ else none

/-- The read `g[i][j]`. -/
def Grid.read {W H : Nat} (g : Grid W H) (i j : Int) : Option Bool := do
  let p ← index? W i
  let q ← index? H j
  pure (g p q)

/-- The array after the assignment `g[p][q] = v`, for indices already checked. -/
def Grid.set {W H : Nat} (g : Grid W H) (p : Fin W) (q : Fin H) (v : Bool) : Grid W H :=
  fun a b => if a = p ∧ b = q then v else g a b

/-- The assignment `g[i][j] = v`. -/
def Grid.write {W H : Nat} (g : Grid W H) (i j : Int) (v : Bool) : Option (Grid W H) := do
  let p ← index? W i
  let q ← index? H j
  pure (g.set p q v)

/-- The two arrays allocated by `main`, in allocation order. -/
inductive Ref where
  | first
  | second
  deriving DecidableEq, Repr

/-- The global variables `current` and `next` (both of type `Board`, a pointer)
together with the arrays they can point to. -/
structure State (W H : Nat) where
  heap : Ref → Grid W H
  current : Ref
  next : Ref

/-- The array that `current` points to. -/
def State.cur {W H : Nat} (s : State W H) : Grid W H := s.heap s.current

/-- The array that `next` points to. -/
def State.nxt {W H : Nat} (s : State W H) : Grid W H := s.heap s.next

/-- Replace the array behind reference `r`. -/
def State.store {W H : Nat} (s : State W H) (r : Ref) (g : Grid W H) : State W H :=
  { s with heap := fun r' => if r' = r then g else s.heap r' }

/-- The index expression of `getCell` along an axis of extent `N`:
`abs(c%N)`. -/
def cellIndex (N : Nat) (c : Int) : Int := abs (goRem c N)

/-- The function `getCell` of both programs:
`current[abs(x%WIDTH)][abs(y%HEIGHT)]`. -/
def getCell {W H : Nat} (s : State W H) (x y : Int) : Option Bool :=
  s.cur.read (cellIndex W x) (cellIndex H y)

/-- An in-range integer as an array index (reduced modulo `n` otherwise). -/
def toFin (n : Nat) [NeZero n] (i : Int) : Fin n :=
  ⟨i.toNat % n, Nat.mod_lt _ (NeZero.pos n)⟩

/-- The cell of array `g` that `getCell(x, y)` addresses. -/
def Grid.peek {W H : Nat} [NeZero W] [NeZero H] (g : Grid W H) (x y : Int) : Bool :=
  g (toFin W (cellIndex W x)) (toFin H (cellIndex H y))

/-- The function `flipBoards` of both programs. -/
def flipBoards {W H : Nat} (s : State W H) : State W H :=
  let n := s.current
  { s with current := s.next, next := n }

/-- The assignment `next[x][y] = v`. -/
def assignNext {W H : Nat} (s : State W H) (x y : Int) (v : Bool) : Option (State W H) := do
  let g ← s.nxt.write x y v
  pure (s.store s.next g)

/-- The two nested `for` loops of `main` that call `updateCell(x, y)` for
`x = 0 .. WIDTH-1` and, inside, `y = 0 .. HEIGHT-1`. -/
def sweep {W H : Nat} (updateCell : State W H → Int → Int → Option (State W H))
    (s : State W H) : Option (State W H) :=
  (List.range W).foldlM
    (fun s (x : Nat) =>
      (List.range H).foldlM (fun s (y : Nat) => updateCell s (x : Int) (y : Int)) s) s

/-- One iteration of the generation loop without output: update every cell,
then `flipBoards`. -/
def generation {W H : Nat} (updateCell : State W H → Int → Int → Option (State W H))
    (s : State W H) : Option (State W H) := do
  let s ← sweep updateCell s
  pure (flipBoards s)

/-- The generation loop run `n` times. -/
def generations {W H : Nat} (updateCell : State W H → Int → Int → Option (State W H)) :
    Nat → State W H → Option (State W H)
  | 0, s => some s
  | n + 1, s => do
    let s ← generation updateCell s
    generations updateCell n s

/-- One character of the printer: `"1"` for `true`, `"0"` for `false`. -/
def cellString (b : Bool) : String := if b then "1" else "0"

/-- The function `printBoard` of both programs: the string handed to
`fmt.Print`. -/
def printBoard {W H : Nat} (s : State W H) : Option String :=
  (List.range W).foldlM
    (fun buf (x : Nat) => do
      let buf ← (List.range H).foldlM
        (fun buf (y : Nat) => do
          let c ← getCell s (x : Int) (y : Int)
          pure (buf ++ cellString c)) buf
      let buf := buf ++ "  "
      let buf ← (List.range H).foldlM
        (fun buf (y : Nat) => do
          let c ← s.nxt.read (x : Int) (y : Int)
          pure (buf ++ cellString c)) buf
      pure (buf ++ "\n")) ""

/-- The character printed for a cell: `'1'` for `true`, `'0'` for `false`. -/
def cellChar (b : Bool) : Char := if b then '1' else '0'

/-- The characters of row `p` of the array `g`, column by column. -/
def rowChars {W H : Nat} (g : Grid W H) (p : Fin W) : List Char :=
  List.ofFn (fun q : Fin H => cellChar (g p q))

/-- An output line that shows two boards: row `p` of the board behind `current`,
two spaces, row `p` of the board behind `next`, a newline. -/
def lineChars {W H : Nat} (s : State W H) (p : Fin W) : List Char :=
  rowChars s.cur p ++ [' ', ' '] ++ rowChars s.nxt p ++ ['\n']

/-- The lines `lineChars` of all rows, first row first. -/
def boardChars {W H : Nat} (s : State W H) : List Char :=
  (List.ofFn (fun p : Fin W => lineChars s p)).flatten

/-- Follows the wording of the specification, not the code: an output line that
shows only the board behind `current`; row `p` of it and a newline. -/
def plainLineChars {W H : Nat} (s : State W H) (p : Fin W) : List Char :=
  rowChars s.cur p ++ ['\n']

/-- Follows the wording of the specification, not the code: the lines
`plainLineChars` of all rows, first row first. -/
def plainBoardChars {W H : Nat} (s : State W H) : List Char :=
  (List.ofFn (fun p : Fin W => plainLineChars s p)).flatten

/-- Both arrays as allocated by `main`: every cell `false`, `current` the first
array and `next` the second. -/
def allocate (W H : Nat) : State W H :=
  { heap := fun _ _ _ => false, current := Ref.first, next := Ref.second }

/-- The assignment `current[x][y] = true` of the seeding code. -/
def seedCell {W H : Nat} (s : State W H) (x y : Int) : Option (State W H) := do
  let g ← s.cur.write x y true
  pure (s.store s.current g)

/-- The array behind `next` while a sweep is under way: the cells of rows before
`x`, and of row `x` before column `k`, hold their new value `f`; the others are
as they were. -/
def sweptGrid {W H : Nat} (old new : Grid W H) (x k : Nat) : Grid W H :=
  fun p q => if p.val < x ∨ (p.val = x ∧ q.val < k) then new p q else old p q

/-- What `updateCell` has to satisfy for the sweep lemmas: at an in-range cell it
assigns to `next[x][y]` a value `f` that depends only on the array behind
`current`. -/
def Computes {W H : Nat} (upd : State W H → Int → Int → Option (State W H))
    (f : Grid W H → Int → Int → Bool) : Prop :=
  ∀ (s : State W H) (p : Fin W) (q : Fin H),
    upd s (p.val : Int) (q.val : Int) =
      some (s.store s.next (s.nxt.set p q (f s.cur (p.val : Int) (q.val : Int))))

/-- The array whose `true` cells are exactly the listed `(x, y)` positions. -/
def gridOf {W H : Nat} (cells : List (Nat × Nat)) : Grid W H :=
  fun p q => decide ((p.val, q.val) ∈ cells)

/-- A state as `main` allocates it (`current` the first array, `next` the
second, every cell of `next` `false`) with the array `g` behind `current`. -/
def stateOf {W H : Nat} (g : Grid W H) : State W H :=
  (allocate W H).store Ref.first g

/-- Follows the wording of the specification, not the code: the coordinate `c`
on an axis of extent `N` as the non-negative remainder of `c` by `N`. -/
def torusIndex (N : Nat) [NeZero N] (c : Int) : Fin N :=
  toFin N (c % (N : Int))

/-- The calls `updateCell(x, y)` made for the cells of `cells`, in list order:
a sweep that visits the cells in an arbitrary order. -/
def updateAll {W H : Nat} (updateCell : State W H → Int → Int → Option (State W H))
    (cells : List (Fin W × Fin H)) (s : State W H) : Option (State W H) :=
  cells.foldlM (fun s c => updateCell s (c.1.val : Int) (c.2.val : Int)) s

/-- The state after one iteration of the generation loop, when `updateCell`
assigns the values `f`: the array behind `next` is replaced by the new
generation and the references are exchanged. -/
def advance {W H : Nat} (f : Grid W H → Int → Int → Bool) (s : State W H) : State W H :=
  flipBoards (s.store s.next (fun a b => f s.cur (a.val : Int) (b.val : Int)))

/-- The state after `n` iterations of the generation loop. -/
def advanceN {W H : Nat} (f : Grid W H → Int → Int → Bool) : Nat → State W H → State W H
  | 0, s => s
  | n + 1, s => advanceN f n (advance f s)

end Cellmata

/-! ## `single.go`: Game of Life -/

namespace Life

open Cellmata

def WIDTH : Nat := 10
def HEIGHT : Nat := 10

instance : NeZero WIDTH := ⟨by decide⟩
instance : NeZero HEIGHT := ⟨by decide⟩

/-- The struct `Cord`. -/
structure Cord where
  x : Int
  y : Int

/-- The table `neighs`, in source order. -/
def neighs : List Cord :=
  [⟨-1, -1⟩, ⟨-1, 0⟩, ⟨-1, 1⟩, ⟨1, -1⟩, ⟨1, 0⟩, ⟨1, 1⟩, ⟨0, -1⟩, ⟨0, 1⟩]

/-- The right-hand side of the assignment in `updateCell`:
`(s == true && (n == 2 || n == 3)) || (s == false && n == 3)`. -/
def cellRule (s : Bool) (n : Int) : Bool :=
  (s == true && (n == 2 || n == 3)) || (s == false && n == 3)

/-- The counting loop of `updateCell`: `n` after the `range neighs` loop. -/
def countNeighs (st : State WIDTH HEIGHT) (x y : Int) : Option Int :=
  neighs.foldlM
    (fun n offset => do
      let c ← getCell st (goAdd x offset.x) (goAdd y offset.y)
      pure (if c then goAdd n 1 else goAdd n 0)) 0

/-- The function `updateCell` of `single.go`. -/
def updateCell (st : State WIDTH HEIGHT) (x y : Int) : Option (State WIDTH HEIGHT) := do
  let n ← countNeighs st x y
  let s ← getCell st x y
  assignNext st x y (cellRule s n)

/-- The value of `n` that `updateCell(x, y)` computes from the array `g` behind
`current`. -/
def countAt (g : Grid WIDTH HEIGHT) (x y : Int) : Int :=
  neighs.foldl
    (fun n offset =>
      if g.peek (goAdd x offset.x) (goAdd y offset.y) then goAdd n 1 else goAdd n 0) 0

/-- The value that `updateCell(x, y)` assigns, as a function of the array `g`
behind `current`. -/
def nextCell (g : Grid WIDTH HEIGHT) (x y : Int) : Bool :=
  cellRule (g.peek x y) (countAt g x y)

/-- The array that one full sweep of `updateCell` computes from `g`. -/
def step (g : Grid WIDTH HEIGHT) : Grid WIDTH HEIGHT :=
  fun p q => nextCell g (p.val : Int) (q.val : Int)

/-- Follows the wording of the specification, not the code: the eight offsets
of the Moore neighbourhood. -/
def mooreOffsets : List (Int × Int) :=
  [(-1, -1), (-1, 0), (-1, 1), (0, -1), (0, 1), (1, -1), (1, 0), (1, 1)]

/-- Follows the wording of the specification, not the code: the number of alive
cells among the eight toroidal Moore neighbours of `(p, q)`, each coordinate
reduced to its non-negative remainder. -/
def torusCount (g : Grid WIDTH HEIGHT) (p : Fin WIDTH) (q : Fin HEIGHT) : Int :=
  ((mooreOffsets.filter
    (fun d => g (torusIndex WIDTH ((p.val : Int) + d.1))
      (torusIndex HEIGHT ((q.val : Int) + d.2)))).length : Int)

/-- Follows the wording of the specification, not the code: B3/S23, an alive
cell survives on 2 or 3 alive neighbours, a dead cell is born on exactly 3. -/
def b3s23 (alive : Bool) (n : Int) : Bool :=
  if alive then decide (n = 2 ∨ n = 3) else decide (n = 3)

/-- The 18 inputs of the rule table: both states of the cell with every
neighbour count from 0 to 8. -/
def ruleCases : List (Bool × Int) :=
  [true, false].flatMap (fun s => (List.range 9).map (fun (n : Nat) => (s, (n : Int))))

/-- The state of `main` when the generation loop starts. -/
def initial : Option (State WIDTH HEIGHT) := do
  let s := allocate WIDTH HEIGHT
  let s ← seedCell s 4 3
  let s ← seedCell s 4 4
  let s ← seedCell s 4 5
  pure s

/-- The number of iterations of the generation loop, `1e6`. -/
def ITERATIONS : Nat := 1000000

/-- The state reached after `n` iterations of the generation loop of `main`. -/
def run (n : Nat) : Option (State WIDTH HEIGHT) := do
  let s ← initial
  generations updateCell n s

/-- The state `main` prints: `n` iterations, then the extra `flipBoards`
of line 46. -/
def finalState (n : Nat) : Option (State WIDTH HEIGHT) := do
  let s ← run n
  pure (flipBoards s)

/-- The text `main` writes to standard output. -/
def main : Option String := do
  let s ← finalState ITERATIONS
  let board ← printBoard s
  pure ("\n" ++ board)

end Life

/-! ## `rule30.go`: the one-dimensional automaton -/

namespace Rule30

open Cellmata

def WIDTH : Nat := 1
def HEIGHT : Nat := 100

instance : NeZero WIDTH := ⟨by decide⟩
instance : NeZero HEIGHT := ⟨by decide⟩

/-- The right-hand side of the assignment in `updateCell`, as a function of the
three cells read: `l != (s || r)`. -/
def cellRule (l s r : Bool) : Bool :=
  l != (s || r)

/-- Go's `a || b` where the operands may panic: `b` is evaluated only when `a`
is `false`. -/
def goOr (a : Option Bool) (b : Unit → Option Bool) : Option Bool := do
  let s ← a
  if s then pure true else b ()

/-- The function `updateCell` of `rule30.go`:
`next[x][y] = (getCell(x, y-1) != (getCell(x, y) || getCell(x, y+1)))`. -/
def updateCell (st : State WIDTH HEIGHT) (x y : Int) : Option (State WIDTH HEIGHT) := do
  let l ← getCell st x (goSub y 1)
  let d ← goOr (getCell st x y) (fun _ => getCell st x (goAdd y 1))
  assignNext st x y (l != d)

/-- The value that `updateCell(x, y)` assigns, as a function of the array `g`
behind `current`. -/
def nextCell (g : Grid WIDTH HEIGHT) (x y : Int) : Bool :=
  cellRule (g.peek x (goSub y 1)) (g.peek x y) (g.peek x (goAdd y 1))

/-- The array that one full sweep of `updateCell` computes from `g`. -/
def step (g : Grid WIDTH HEIGHT) : Grid WIDTH HEIGHT :=
  fun p q => nextCell g (p.val : Int) (q.val : Int)

/-- Follows the wording of the specification, not the code: the new value of
position `q` is `left XOR (self OR right)` with the neighbours at `q - 1` and
`q + 1` reduced to their non-negative remainder modulo the height. -/
def torusNext (g : Grid WIDTH HEIGHT) (q : Fin HEIGHT) : Bool :=
  xor (g 0 (torusIndex HEIGHT ((q.val : Int) - 1)))
    (g 0 q || g 0 (torusIndex HEIGHT ((q.val : Int) + 1)))

/-- Follows the wording of the specification, not the code: one generation of
`next[y] = cur[(y-1) mod 100] XOR (cur[y] OR cur[(y+1) mod 100])` on the
torus. -/
def torusStep (g : Grid WIDTH HEIGHT) : Grid WIDTH HEIGHT :=
  fun _ q => torusNext g q

/-- The positions that are on after each of the first ten generations of rule
30 from the single cell at position 50 (generation 0 is the seed), as `(0, y)`
pairs. -/
def generationCells : Nat → List (Nat × Nat)
  | 0 =>
    [(0, 50)]
  | 1 =>
    [(0, 49), (0, 50), (0, 51)]
  | 2 =>
    [(0, 48), (0, 49), (0, 52)]
  | 3 =>
    [(0, 47), (0, 48), (0, 50), (0, 51), (0, 52), (0, 53)]
  | 4 =>
    [(0, 46), (0, 47), (0, 50), (0, 54)]
  | 5 =>
    [(0, 45), (0, 46), (0, 48), (0, 49), (0, 50), (0, 51), (0, 53), (0, 54), (0, 55)]
  | 6 =>
    [(0, 44), (0, 45), (0, 48), (0, 53), (0, 56)]
  | 7 =>
    [(0, 43), (0, 44), (0, 46), (0, 47), (0, 48), (0, 49), (0, 52), (0, 53), (0, 54), (0, 55),
      (0, 56), (0, 57)]
  | 8 =>
    [(0, 42), (0, 43), (0, 46), (0, 50), (0, 51), (0, 52), (0, 58)]
  | 9 =>
    [(0, 41), (0, 42), (0, 44), (0, 45), (0, 46), (0, 47), (0, 49), (0, 50), (0, 53), (0, 57),
      (0, 58), (0, 59)]
  | 10 =>
    [(0, 40), (0, 41), (0, 44), (0, 49), (0, 51), (0, 52), (0, 53), (0, 54), (0, 56), (0, 57),
      (0, 60)]
  | _ => []

/-- The state of `main` when the generation loop starts. -/
def initial : Option (State WIDTH HEIGHT) := do
  let s := allocate WIDTH HEIGHT
  seedCell s 0 50

/-- The number of iterations of the generation loop. -/
def ITERATIONS : Nat := 10

/-- The state reached after `n` iterations of the generation loop of `main`. -/
def run (n : Nat) : Option (State WIDTH HEIGHT) := do
  let s ← initial
  generations updateCell n s

/-- The state `main` prints last: `n` iterations, then the extra `flipBoards`
of line 45. -/
def finalState (n : Nat) : Option (State WIDTH HEIGHT) := do
  let s ← run n
  pure (flipBoards s)

/-- The generation loop of `main` with its output: each iteration updates every
cell, calls `flipBoards` and appends the text of `printBoard`. -/
def loop : Nat → State WIDTH HEIGHT × String → Option (State WIDTH HEIGHT × String)
  | 0, p => some p
  | n + 1, (s, out) => do
    let s ← generation updateCell s
    let line ← printBoard s
    loop n (s, out ++ line)

/-- The text `main` writes to standard output. -/
def main : Option String := do
  let s ← initial
  let (s, out) ← loop ITERATIONS (s, "")
  let s := flipBoards s
  let board ← printBoard s
  pure (out ++ "\n" ++ board)

end Rule30

/-! ## Integer arithmetic of the index expression -/

namespace Cellmata

theorem wrapInt_of_isInt64 {z : Int} (h : IsInt64 z) : wrapInt z = z := by
  unfold IsInt64 at h
  unfold wrapInt
  omega

theorem natAbs_tmod (c : Int) (N : Nat) : (Int.tmod c N).natAbs = c.natAbs % N := by
  cases c with
  | ofNat m => simp [Int.tmod]; norm_cast
  | negSucc m => simp [Int.tmod]; norm_cast

theorem natAbs_goRem_lt (c : Int) {N : Nat} (h : 0 < N) : (goRem c N).natAbs < N := by
  unfold goRem
  rw [natAbs_tmod]
  exact Nat.mod_lt _ h

theorem goNeg_goRem (c : Int) {N : Nat} (h : 0 < N) (hN : (N : Int) < 2 ^ 63) :
    goNeg (goRem c N) = -(goRem c N) := by
  have h1 := natAbs_goRem_lt c h
  unfold goNeg
  apply wrapInt_of_isInt64
  unfold IsInt64
  omega

theorem cellIndex_eq_natAbs (c : Int) {N : Nat} (h : 0 < N) (hN : (N : Int) < 2 ^ 63) :
    cellIndex N c = ((c.natAbs % N : Nat) : Int) := by
  have h1 := natAbs_tmod c N
  have h2 := goNeg_goRem c h hN
  unfold cellIndex abs
  unfold goRem at *
  split <;> omega

theorem cellIndex_range (c : Int) {N : Nat} (h : 0 < N) (hN : (N : Int) < 2 ^ 63) :
    0 ≤ cellIndex N c ∧ cellIndex N c < N := by
  rw [cellIndex_eq_natAbs c h hN]
  have := Nat.mod_lt c.natAbs h
  omega

/-! ## Reads and writes that stay in range -/

theorem index?_of_range {n : Nat} [NeZero n] {i : Int} (h : 0 ≤ i ∧ i < (n : Int)) :
    index? n i = some (toFin n i) := by
  unfold index? toFin
  rw [dif_pos h]
  congr 1
  apply Fin.ext
  have : i.toNat < n := by omega
  simp [Nat.mod_eq_of_lt this]

theorem index?_cellIndex {N : Nat} [NeZero N] (hN : (N : Int) < 2 ^ 63) (c : Int) :
    index? N (cellIndex N c) = some (toFin N (cellIndex N c)) :=
  index?_of_range (cellIndex_range c (NeZero.pos N) hN)

theorem index?_val {n : Nat} (p : Fin n) : index? n (p.val : Int) = some p := by
  unfold index?
  have h : 0 ≤ (p.val : Int) ∧ (p.val : Int) < (n : Int) := by
    have := p.isLt
    omega
  rw [dif_pos h]
  simp

theorem getCell_eq {W H : Nat} [NeZero W] [NeZero H] (hW : (W : Int) < 2 ^ 63)
    (hH : (H : Int) < 2 ^ 63) (s : State W H) (x y : Int) :
    getCell s x y = some (s.cur.peek x y) := by
  unfold getCell Grid.read Grid.peek
  rw [index?_cellIndex hW, index?_cellIndex hH]
  rfl

theorem assignNext_val {W H : Nat} (s : State W H) (p : Fin W) (q : Fin H) (v : Bool) :
    assignNext s (p.val : Int) (q.val : Int) v = some (s.store s.next (s.nxt.set p q v)) := by
  unfold assignNext Grid.write
  rw [index?_val, index?_val]
  rfl

/-! ## The sweep -/

theorem store_cur {W H : Nat} (s : State W H) (g : Grid W H) (hne : s.current ≠ s.next) :
    (s.store s.next g).cur = s.cur := by
  simp [State.store, State.cur, hne]

theorem store_nxt {W H : Nat} (s : State W H) (g : Grid W H) :
    (s.store s.next g).nxt = g := by
  simp [State.store, State.nxt]

theorem store_store {W H : Nat} (s : State W H) (r : Ref) (g g' : Grid W H) :
    (s.store r g).store r g' = s.store r g' := by
  simp only [State.store]
  congr 1
  funext r'
  split <;> rfl

theorem store_self {W H : Nat} (s : State W H) : s.store s.next s.nxt = s := by
  cases s with
  | mk heap current next =>
    simp only [State.store, State.nxt]
    congr 1
    funext r'
    split
    · next h => rw [h]
    · rfl

theorem sweptGrid_set {W H : Nat} (old new : Grid W H) (p : Fin W) (q : Fin H) :
    (sweptGrid old new p.val q.val).set p q (new p q) =
      sweptGrid old new p.val (q.val + 1) := by
  funext a b
  unfold Grid.set sweptGrid
  by_cases h : a = p ∧ b = q
  · obtain ⟨rfl, rfl⟩ := h
    simp
  · rw [if_neg h]
    have h' : ¬ (a.val = p.val ∧ b.val = q.val) := by
      intro ⟨h1, h2⟩
      exact h ⟨Fin.ext h1, Fin.ext h2⟩
    have : (a.val < p.val ∨ (a.val = p.val ∧ b.val < q.val + 1)) ↔
        (a.val < p.val ∨ (a.val = p.val ∧ b.val < q.val)) := by omega
    simp only [this]

theorem sweptGrid_row {W H : Nat} (old new : Grid W H) (x : Nat) :
    sweptGrid old new x H = sweptGrid old new (x + 1) 0 := by
  funext a b
  unfold sweptGrid
  have hb := b.isLt
  have : (a.val < x ∨ (a.val = x ∧ b.val < H)) ↔
      (a.val < x + 1 ∨ (a.val = x + 1 ∧ b.val < 0)) := by omega
  simp only [this]

theorem sweptGrid_zero {W H : Nat} (old new : Grid W H) :
    sweptGrid old new 0 0 = old := by
  funext a b
  simp [sweptGrid]

theorem sweptGrid_all {W H : Nat} (old new : Grid W H) :
    sweptGrid old new W 0 = new := by
  funext a b
  simp [sweptGrid]


theorem store_next {W H : Nat} (s : State W H) (r : Ref) (g : Grid W H) :
    (s.store r g).next = s.next := rfl

theorem store_current {W H : Nat} (s : State W H) (r : Ref) (g : Grid W H) :
    (s.store r g).current = s.current := rfl

theorem upd_store {W H : Nat} {upd : State W H → Int → Int → Option (State W H)}
    {f : Grid W H → Int → Int → Bool} (hupd : Computes upd f)
    (s : State W H) (hne : s.current ≠ s.next) (g : Grid W H) (p : Fin W) (q : Fin H) :
    upd (s.store s.next g) (p.val : Int) (q.val : Int) =
      some (s.store s.next (g.set p q (f s.cur (p.val : Int) (q.val : Int)))) := by
  rw [hupd, store_next, store_store, store_nxt, store_cur s g hne]

theorem sweep_row {W H : Nat} {upd : State W H → Int → Int → Option (State W H)}
    {f : Grid W H → Int → Int → Bool} (hupd : Computes upd f)
    (s : State W H) (hne : s.current ≠ s.next) (p : Fin W) (k : Nat) (hk : k ≤ H) :
    (List.range k).foldlM (fun s (y : Nat) => upd s (p.val : Int) (y : Int))
        (s.store s.next (sweptGrid s.nxt (fun a b => f s.cur a.val b.val) p.val 0)) =
      some (s.store s.next (sweptGrid s.nxt (fun a b => f s.cur a.val b.val) p.val k)) := by
  induction k with
  | zero => rfl
  | succ k ih =>
    rw [List.range_succ, List.foldlM_append, ih (by omega)]
    have h := upd_store hupd s hne
      (sweptGrid s.nxt (fun a b => f s.cur a.val b.val) p.val k) p ⟨k, by omega⟩
    simp only [Option.some_bind, Option.bind_eq_bind, List.foldlM_cons, List.foldlM_nil] at h ⊢
    rw [h]
    have h2 := sweptGrid_set s.nxt (fun a b => f s.cur a.val b.val) p ⟨k, by omega⟩
    simp only at h2
    rw [h2]
    rfl

theorem sweep_rows {W H : Nat} {upd : State W H → Int → Int → Option (State W H)}
    {f : Grid W H → Int → Int → Bool} (hupd : Computes upd f)
    (s : State W H) (hne : s.current ≠ s.next) (x : Nat) (hx : x ≤ W) :
    (List.range x).foldlM
        (fun s (x : Nat) =>
          (List.range H).foldlM (fun s (y : Nat) => upd s (x : Int) (y : Int)) s) s =
      some (s.store s.next (sweptGrid s.nxt (fun a b => f s.cur a.val b.val) x 0)) := by
  induction x with
  | zero =>
    rw [sweptGrid_zero, store_self]
    rfl
  | succ x ih =>
    rw [List.range_succ, List.foldlM_append, ih (by omega)]
    have h := sweep_row hupd s hne ⟨x, by omega⟩ H (le_refl H)
    simp only at h
    simp only [Option.some_bind, Option.bind_eq_bind, List.foldlM_cons, List.foldlM_nil]
    rw [h, sweptGrid_row]
    rfl

/-- A full sweep from a state whose two references differ leaves the array
behind `current` alone and fills the array behind `next` with the values `f`
computed from the array behind `current`. -/
theorem sweep_eq {W H : Nat} {upd : State W H → Int → Int → Option (State W H)}
    {f : Grid W H → Int → Int → Bool} (hupd : Computes upd f)
    (s : State W H) (hne : s.current ≠ s.next) :
    sweep upd s = some (s.store s.next (fun a b => f s.cur a.val b.val)) := by
  unfold sweep
  rw [sweep_rows hupd s hne W (le_refl W), sweptGrid_all]

/-! ## The generation loop -/

theorem generation_eq {W H : Nat} {upd : State W H → Int → Int → Option (State W H)}
    {f : Grid W H → Int → Int → Bool} (hupd : Computes upd f)
    (s : State W H) (hne : s.current ≠ s.next) :
    generation upd s = some (advance f s) := by
  unfold generation
  rw [sweep_eq hupd s hne]
  rfl

theorem advance_ne {W H : Nat} (f : Grid W H → Int → Int → Bool) (s : State W H)
    (hne : s.current ≠ s.next) : (advance f s).current ≠ (advance f s).next := by
  intro h
  exact hne h.symm

theorem advance_cur {W H : Nat} (f : Grid W H → Int → Int → Bool) (s : State W H) :
    (advance f s).cur = fun a b => f s.cur (a.val : Int) (b.val : Int) := by
  simp [advance, flipBoards, State.cur, State.store]

theorem advance_nxt {W H : Nat} (f : Grid W H → Int → Int → Bool) (s : State W H)
    (hne : s.current ≠ s.next) : (advance f s).nxt = s.cur := by
  simp [advance, flipBoards, State.cur, State.nxt, State.store, hne]

theorem generations_eq {W H : Nat} {upd : State W H → Int → Int → Option (State W H)}
    {f : Grid W H → Int → Int → Bool} (hupd : Computes upd f) (n : Nat)
    (s : State W H) (hne : s.current ≠ s.next) :
    generations upd n s = some (advanceN f n s) := by
  induction n generalizing s with
  | zero => rfl
  | succ n ih =>
    unfold generations
    rw [generation_eq hupd s hne]
    exact ih (advance f s) (advance_ne f s hne)

/-- After `n` iterations the array behind `current` is the `n`-th iterate of the
sweep function on the initial one. -/
theorem advanceN_cur {W H : Nat} (f : Grid W H → Int → Int → Bool) (n : Nat) (s : State W H) :
    (advanceN f n s).cur = (fun g a b => f g (a.val : Int) (b.val : Int))^[n] s.cur := by
  induction n generalizing s with
  | zero => rfl
  | succ n ih =>
    rw [Function.iterate_succ_apply, ← advance_cur]
    exact ih (advance f s)

/-- After `n + 1` iterations the array behind `next` is the `n`-th iterate. -/
theorem advanceN_nxt {W H : Nat} (f : Grid W H → Int → Int → Bool) (n : Nat) (s : State W H)
    (hne : s.current ≠ s.next) :
    (advanceN f (n + 1) s).nxt = (fun g a b => f g (a.val : Int) (b.val : Int))^[n] s.cur := by
  induction n generalizing s with
  | zero => exact advance_nxt f s hne
  | succ n ih =>
    rw [Function.iterate_succ_apply, ← advance_cur]
    exact ih (advance f s) (advance_ne f s hne)

end Cellmata

/-! ## `updateCell` of `single.go` -/

namespace Life

open Cellmata

theorem width_lt : ((WIDTH : Nat) : Int) < 2 ^ 63 := by decide
theorem height_lt : ((HEIGHT : Nat) : Int) < 2 ^ 63 := by decide

theorem life_getCell_eq (st : State WIDTH HEIGHT) (x y : Int) :
    getCell st x y = some (st.cur.peek x y) :=
  getCell_eq width_lt height_lt st x y

theorem countNeighs_eq (st : State WIDTH HEIGHT) (x y : Int) :
    countNeighs st x y = some (countAt st.cur x y) := by
  unfold countNeighs countAt neighs
  simp only [List.foldlM_cons, List.foldlM_nil, life_getCell_eq, Option.some_bind,
    Option.bind_eq_bind, List.foldl_cons, List.foldl_nil, Option.pure_def]

theorem life_computes : Computes updateCell nextCell := by
  intro s p q
  unfold updateCell
  rw [countNeighs_eq, life_getCell_eq]
  exact assignNext_val s p q _

end Life

/-! ## `updateCell` of `rule30.go` -/

namespace Rule30

open Cellmata

theorem rule30_width_lt : ((WIDTH : Nat) : Int) < 2 ^ 63 := by decide
theorem rule30_height_lt : ((HEIGHT : Nat) : Int) < 2 ^ 63 := by decide

theorem rule30_getCell_eq (st : State WIDTH HEIGHT) (x y : Int) :
    getCell st x y = some (st.cur.peek x y) :=
  getCell_eq rule30_width_lt rule30_height_lt st x y

theorem rule30_computes : Computes updateCell nextCell := by
  intro s p q
  rw [← assignNext_val s p q]
  unfold updateCell goOr nextCell cellRule
  simp only [rule30_getCell_eq, Option.some_bind, Option.bind_eq_bind, Option.pure_def]
  cases s.cur.peek (p.val : Int) (q.val : Int) <;> simp

end Rule30

/-! ## Initial states -/

namespace Cellmata

theorem seedCell_val {W H : Nat} (s : State W H) (p : Fin W) (q : Fin H) :
    seedCell s (p.val : Int) (q.val : Int) = some (s.store s.current (s.cur.set p q true)) := by
  unfold seedCell Grid.write
  rw [index?_val, index?_val]
  rfl

theorem state_ext {W H : Nat} {s t : State W H} (h1 : s.heap Ref.first = t.heap Ref.first)
    (h2 : s.heap Ref.second = t.heap Ref.second) (hc : s.current = t.current)
    (hn : s.next = t.next) : s = t := by
  cases s with
  | mk sh sc sn =>
    cases t with
    | mk th tc tn =>
      simp only at h1 h2 hc hn
      subst hc hn
      congr 1
      funext r
      cases r
      · exact h1
      · exact h2

theorem stateOf_cur {W H : Nat} (g : Grid W H) : (stateOf g).cur = g := by
  simp [stateOf, State.store, State.cur, allocate]

theorem stateOf_ne {W H : Nat} (g : Grid W H) : (stateOf g).current ≠ (stateOf g).next := by
  simp [stateOf, State.store, allocate]

end Cellmata

namespace Life

open Cellmata

theorem index?_lit4 : index? WIDTH 4 = some 4 := by decide
theorem index?_lit3 : index? HEIGHT 3 = some 3 := by decide
theorem index?_lit4h : index? HEIGHT 4 = some 4 := by decide
theorem index?_lit5 : index? HEIGHT 5 = some 5 := by decide

theorem life_initial_eq : initial = some (stateOf (gridOf [(4, 3), (4, 4), (4, 5)])) := by
  unfold initial seedCell Grid.write
  simp only [index?_lit4, index?_lit3, index?_lit4h, index?_lit5, Option.some_bind,
    Option.bind_eq_bind, Option.pure_def]
  congr 1
  apply state_ext
  · funext p q
    revert p q
    decide
  · funext p q
    revert p q
    decide
  · rfl
  · rfl

end Life

/-! ## The runs of the two programs -/

namespace Cellmata

theorem flipBoards_cur {W H : Nat} (s : State W H) : (flipBoards s).cur = s.nxt := rfl

theorem flipBoards_nxt {W H : Nat} (s : State W H) : (flipBoards s).nxt = s.cur := rfl

end Cellmata

namespace Life

open Cellmata

theorem step_vertical :
    step (gridOf [(4, 3), (4, 4), (4, 5)]) = gridOf [(3, 4), (4, 4), (5, 4)] := by
  funext p q
  revert p q
  decide!

theorem step_horizontal :
    step (gridOf [(3, 4), (4, 4), (5, 4)]) = gridOf [(4, 3), (4, 4), (4, 5)] := by
  funext p q
  revert p q
  decide!

/-- The state after `n` iterations of the generation loop of `single.go`. -/
theorem life_run_eq (n : Nat) :
    run n = some (advanceN nextCell n (stateOf (gridOf [(4, 3), (4, 4), (4, 5)]))) := by
  unfold run
  rw [life_initial_eq]
  exact generations_eq life_computes n _ (stateOf_ne _)

theorem life_run_cur (n : Nat) :
    (advanceN nextCell n (stateOf (gridOf [(4, 3), (4, 4), (4, 5)]))).cur =
      step^[n] (gridOf [(4, 3), (4, 4), (4, 5)]) := by
  rw [advanceN_cur, stateOf_cur]
  rfl

theorem life_run_nxt (n : Nat) :
    (advanceN nextCell (n + 1) (stateOf (gridOf [(4, 3), (4, 4), (4, 5)]))).nxt =
      step^[n] (gridOf [(4, 3), (4, 4), (4, 5)]) := by
  rw [advanceN_nxt _ _ _ (stateOf_ne _), stateOf_cur]
  rfl

end Life

namespace Rule30

open Cellmata

theorem rule30_index?_0 : index? WIDTH 0 = some 0 := by decide
theorem rule30_index?_50 : index? HEIGHT 50 = some 50 := by decide

theorem rule30_initial_eq : initial = some (stateOf (gridOf [(0, 50)])) := by
  unfold initial seedCell Grid.write
  simp only [rule30_index?_0, rule30_index?_50, Option.some_bind, Option.bind_eq_bind,
    Option.pure_def]
  congr 1
  apply state_ext
  · funext p q
    revert p q
    decide
  · funext p q
    revert p q
    decide
  · rfl
  · rfl

theorem step_seed : step (gridOf [(0, 50)]) = gridOf [(0, 49), (0, 50), (0, 51)] := by
  funext p q
  revert p q
  decide!

theorem rule30_run_eq (n : Nat) :
    run n = some (advanceN nextCell n (stateOf (gridOf [(0, 50)]))) := by
  unfold run
  rw [rule30_initial_eq]
  exact generations_eq rule30_computes n _ (stateOf_ne _)

theorem rule30_run_cur (n : Nat) :
    (advanceN nextCell n (stateOf (gridOf [(0, 50)]))).cur = step^[n] (gridOf [(0, 50)]) := by
  rw [advanceN_cur, stateOf_cur]
  rfl

theorem rule30_run_nxt (n : Nat) :
    (advanceN nextCell (n + 1) (stateOf (gridOf [(0, 50)]))).nxt =
      step^[n] (gridOf [(0, 50)]) := by
  rw [advanceN_nxt _ _ _ (stateOf_ne _), stateOf_cur]
  rfl

end Rule30

/-! ## Toroidal addressing -/

namespace Cellmata

/-- C1: on an axis of extent 10 the index that `getCell` uses for the coordinate
-1 is 1, whereas the non-negative remainder `((c % N) + N) % N` is 9; for the
coordinates 10 and 21 the index is 0 and 1, the non-negative remainder. The same
happens on the axis of extent 100, where -1 is sent to 1 and not to 99. -/
theorem cellIndex_at_minus_one :
    cellIndex 10 (-1) = 1 ∧ goRem (goRem (-1) 10 + 10) 10 = 9 ∧ (-1 : Int) % 10 = 9 ∧
      cellIndex 10 10 = 0 ∧ cellIndex 10 21 = 1 ∧
      cellIndex 100 (-1) = 1 ∧ goRem (goRem (-1) 100 + 100) 100 = 99 := by
  decide

/-- C2: for every integer `c` and every extent `N > 0` that is an `int`, the
index `abs(c % N)` lies in `[0, N)` and the negation inside `abs` does not
overflow (the wrapped negation of `c % N` is its exact negation, a 64-bit
value); so `getCell(x, y)` returns a cell, without an index panic, for every
state and every pair of integers in both programs. -/
theorem cellIndex_in_bounds (c : Int) (N : Nat) (hpos : 0 < N) (hN : (N : Int) < 2 ^ 63) :
    (0 ≤ cellIndex N c ∧ cellIndex N c < (N : Int)) ∧
      (goNeg (goRem c N) = -(goRem c N) ∧ IsInt64 (-(goRem c N))) ∧
      (∀ (st : State Life.WIDTH Life.HEIGHT) (x y : Int), ∃ b, getCell st x y = some b) ∧
      (∀ (st : State Rule30.WIDTH Rule30.HEIGHT) (x y : Int), ∃ b, getCell st x y = some b) := by
  refine ⟨cellIndex_range c hpos hN, ⟨goNeg_goRem c hpos hN, ?_⟩, ?_, ?_⟩
  · have h1 := natAbs_goRem_lt c hpos
    unfold IsInt64
    omega
  · intro st x y
    exact ⟨_, Life.life_getCell_eq st x y⟩
  · intro st x y
    exact ⟨_, Rule30.rule30_getCell_eq st x y⟩

theorem cellIndex_in_bounds_witness :
    (0 < 10 ∧ ((10 : Nat) : Int) < 2 ^ 63) ∧
      ((0 ≤ cellIndex 10 (-7) ∧ cellIndex 10 (-7) < ((10 : Nat) : Int)) ∧
      (goNeg (goRem (-7) (10 : Nat)) = -(goRem (-7) (10 : Nat)) ∧
        IsInt64 (-(goRem (-7) (10 : Nat)))) ∧
      (∀ (st : State Life.WIDTH Life.HEIGHT) (x y : Int), ∃ b, getCell st x y = some b) ∧
      (∀ (st : State Rule30.WIDTH Rule30.HEIGHT) (x y : Int), ∃ b, getCell st x y = some b)) :=
  ⟨⟨by decide, by decide⟩, cellIndex_in_bounds (-7) 10 (by decide) (by decide)⟩

end Cellmata

/-! ## The Game of Life cell update -/

namespace Life

open Cellmata

/-- C3: with `current` alive exactly at (9,4), (9,5), (9,6), the cell (0,5) has
three alive toroidal Moore neighbours (its neighbours in row 9), so B3/S23 makes
it alive; `updateCell(0, 5)` counts `n = 0`, because `getCell(-1, y)` reads row 1
instead of row 9, and writes `false` to `next[0][5]`. -/
theorem updateCell_row_zero :
    countNeighs (stateOf (gridOf [(9, 4), (9, 5), (9, 6)])) 0 5 = some 0 ∧
      torusCount (gridOf [(9, 4), (9, 5), (9, 6)]) 0 5 = 3 ∧
      (updateCell (stateOf (gridOf [(9, 4), (9, 5), (9, 6)])) 0 5).map (fun st => st.nxt 0 5) =
        some false ∧
      b3s23 ((gridOf [(9, 4), (9, 5), (9, 6)] : Grid WIDTH HEIGHT) 0 5)
        (torusCount (gridOf [(9, 4), (9, 5), (9, 6)]) 0 5) = true := by
  decide

/-- C4, as stated, fails: of the 18 combinations of a state and a neighbour
count from 0 to 8, the value written is `false` in 15, not in 13. -/
theorem false_cases_not_13 :
    ¬ ((∀ (s : Bool) (n : Int), 0 ≤ n → n ≤ 8 →
          (cellRule s n = true ↔ (s = true ∧ (n = 2 ∨ n = 3)) ∨ (s = false ∧ n = 3))) ∧
        (ruleCases.filter (fun c => cellRule c.1 c.2 == false)).length = 13) := by
  intro h
  exact absurd h.2 (by decide)

/-- C4, amended: the value `updateCell` writes for state `s` and count `n` is
`true` exactly when (`s` is alive and `n` is 2 or 3) or (`s` is dead and `n` is
3); of the 18 combinations with `n` from 0 to 8 it is `true` in 3 and `false` in
the 15 others. -/
theorem rule_table :
    (∀ (st : State WIDTH HEIGHT) (p : Fin WIDTH) (q : Fin HEIGHT),
        updateCell st (p.val : Int) (q.val : Int) =
          assignNext st (p.val : Int) (q.val : Int)
            (cellRule (st.cur.peek (p.val : Int) (q.val : Int))
              (countAt st.cur (p.val : Int) (q.val : Int)))) ∧
      (∀ (s : Bool) (n : Int),
        cellRule s n = true ↔ (s = true ∧ (n = 2 ∨ n = 3)) ∨ (s = false ∧ n = 3)) ∧
      (ruleCases.filter (fun c => cellRule c.1 c.2 == true)).length = 3 ∧
      (ruleCases.filter (fun c => cellRule c.1 c.2 == false)).length = 15 := by
  refine ⟨?_, ?_, by decide, by decide⟩
  · intro st p q
    rw [life_computes st p q, assignNext_val]
    rfl
  · intro s n
    cases s <;> simp [cellRule]

end Life

/-! ## The one-dimensional cell update -/

namespace Rule30

open Cellmata

/-- C5: with `current` on only at position 99, the left neighbour of position 0
on the torus is on, so `left XOR (self OR right)` is `true`; `updateCell(0, 0)`
reads position 1 for `getCell(0, -1)` and writes `false` to `next[0][0]`. -/
theorem updateCell_position_zero :
    (updateCell (stateOf (gridOf [(0, 99)])) 0 0).map (fun st => st.nxt 0 0) = some false ∧
      torusNext (gridOf [(0, 99)]) 0 = true ∧
      getCell (stateOf (gridOf [(0, 99)]) : State WIDTH HEIGHT) 0 (-1) =
        some ((gridOf [(0, 99)] : Grid WIDTH HEIGHT) 0 1) ∧
      torusIndex HEIGHT (-1) = 99 := by
  decide

end Rule30

/-! ## End-to-end runs -/

namespace Rule30

open Cellmata

/-- C6, as stated, fails: after one generation from the seed of `rule30.go` it
is not the case that `current` is on exactly at positions 49 and 51, since
position 50 is on as well. -/
theorem first_generation_not_two_cells :
    ¬ ∃ st, run 1 = some st ∧
        ∀ q : Fin HEIGHT, st.cur 0 q = true ↔ (q.val = 49 ∨ q.val = 51) := by
  rintro ⟨st, hrun, hcells⟩
  rw [rule30_run_eq] at hrun
  have hst := Option.some.inj hrun
  have hcur : st.cur = gridOf [(0, 49), (0, 50), (0, 51)] := by
    rw [← hst, rule30_run_cur]
    exact step_seed
  have h50 := (hcells 50).mp (by rw [hcur]; decide)
  revert h50
  decide

/-- C6, amended: after one generation (every cell updated, then `flipBoards`)
from the seed of `rule30.go`, `current` is on exactly at positions 49, 50 and
51. -/
theorem first_generation_three_cells :
    ∃ st, run 1 = some st ∧
      ∀ (p : Fin WIDTH) (q : Fin HEIGHT),
        st.cur p q = true ↔ (q.val = 49 ∨ q.val = 50 ∨ q.val = 51) := by
  refine ⟨_, rule30_run_eq 1, ?_⟩
  rw [rule30_run_cur]
  have h : step^[1] (gridOf [(0, 50)]) = gridOf [(0, 49), (0, 50), (0, 51)] := step_seed
  rw [h]
  decide

end Rule30

namespace Life

open Cellmata

/-- C7: from the seed of `single.go` (alive exactly at (4,3), (4,4), (4,5)),
after one generation `current` is alive exactly at (3,4), (4,4), (5,4), and
after two generations it is alive exactly at (4,3), (4,4), (4,5) again. -/
theorem blinker_two_generations :
    ∃ s1 s2, run 1 = some s1 ∧ run 2 = some s2 ∧
      (∀ (p : Fin WIDTH) (q : Fin HEIGHT), s1.cur p q = true ↔
        ((p.val = 3 ∧ q.val = 4) ∨ (p.val = 4 ∧ q.val = 4) ∨ (p.val = 5 ∧ q.val = 4))) ∧
      (∀ (p : Fin WIDTH) (q : Fin HEIGHT), s2.cur p q = true ↔
        ((p.val = 4 ∧ q.val = 3) ∨ (p.val = 4 ∧ q.val = 4) ∨ (p.val = 4 ∧ q.val = 5))) := by
  refine ⟨_, _, life_run_eq 1, life_run_eq 2, ?_, ?_⟩
  · rw [life_run_cur]
    have h : step^[1] (gridOf [(4, 3), (4, 4), (4, 5)]) = gridOf [(3, 4), (4, 4), (5, 4)] :=
      step_vertical
    rw [h]
    decide
  · rw [life_run_cur]
    have h : step^[2] (gridOf [(4, 3), (4, 4), (4, 5)]) = gridOf [(4, 3), (4, 4), (4, 5)] := by
      show step (step (gridOf [(4, 3), (4, 4), (4, 5)])) = _
      rw [step_vertical, step_horizontal]
    rw [h]
    decide

end Life

/-! ## The final dump, the frame of an update, and the rule number -/

namespace Cellmata

theorem computes_frame {W H : Nat} {upd : State W H → Int → Int → Option (State W H)}
    {f : Grid W H → Int → Int → Bool} (hupd : Computes upd f)
    (s : State W H) (hne : s.current ≠ s.next) (p : Fin W) (q : Fin H) :
    ∃ t, upd s (p.val : Int) (q.val : Int) = some t ∧ t.cur = s.cur ∧
      t.current = s.current ∧ t.next = s.next ∧
      t.nxt p q = f s.cur (p.val : Int) (q.val : Int) ∧
      ∀ (a : Fin W) (b : Fin H), ¬ (a = p ∧ b = q) → t.nxt a b = s.nxt a b := by
  refine ⟨_, hupd s p q, store_cur s _ hne, rfl, rfl, ?_, ?_⟩
  · rw [store_nxt]
    simp [Grid.set]
  · intro a b hab
    rw [store_nxt]
    simp [Grid.set, hab]

theorem sweep_frame {W H : Nat} {upd : State W H → Int → Int → Option (State W H)}
    {f : Grid W H → Int → Int → Bool} (hupd : Computes upd f)
    (s : State W H) (hne : s.current ≠ s.next) :
    ∃ t, sweep upd s = some t ∧ t.cur = s.cur ∧ t.current = s.current ∧ t.next = s.next ∧
      ∀ (a : Fin W) (b : Fin H), t.nxt a b = f s.cur (a.val : Int) (b.val : Int) := by
  refine ⟨_, sweep_eq hupd s hne, store_cur s _ hne, rfl, rfl, ?_⟩
  intro a b
  rw [store_nxt]

/-- C8: in both programs, for every `N = n + 1`, after `N` iterations of the
generation loop the board computed into `next` during generation `N` is the one
behind `current`; the extra `flipBoards` before the final dump then leaves it
behind `next`, and the board behind `current` (printed first) is the state after
`N - 1` generations. For `N = 1` the two boards differ in both programs. -/
theorem final_dump_one_generation_behind :
    (∀ n, ∃ r s, Life.run (n + 1) = some r ∧ Life.finalState (n + 1) = some s ∧
        s = flipBoards r ∧
        r.cur = Life.step^[n + 1] (gridOf [(4, 3), (4, 4), (4, 5)]) ∧
        s.nxt = Life.step^[n + 1] (gridOf [(4, 3), (4, 4), (4, 5)]) ∧
        s.cur = Life.step^[n] (gridOf [(4, 3), (4, 4), (4, 5)])) ∧
      (∀ n, ∃ r s, Rule30.run (n + 1) = some r ∧ Rule30.finalState (n + 1) = some s ∧
        s = flipBoards r ∧
        r.cur = Rule30.step^[n + 1] (gridOf [(0, 50)]) ∧
        s.nxt = Rule30.step^[n + 1] (gridOf [(0, 50)]) ∧
        s.cur = Rule30.step^[n] (gridOf [(0, 50)])) ∧
      Life.step^[0] (gridOf [(4, 3), (4, 4), (4, 5)]) ≠
        Life.step^[1] (gridOf [(4, 3), (4, 4), (4, 5)]) ∧
      Rule30.step^[0] (gridOf [(0, 50)]) ≠ Rule30.step^[1] (gridOf [(0, 50)]) := by
  refine ⟨?_, ?_, ?_, ?_⟩
  · intro n
    refine ⟨_,
      flipBoards (advanceN Life.nextCell (n + 1) (stateOf (gridOf [(4, 3), (4, 4), (4, 5)]))),
      Life.life_run_eq (n + 1), ?_, rfl, Life.life_run_cur (n + 1), ?_, ?_⟩
    · unfold Life.finalState
      rw [Life.life_run_eq]
      rfl
    · rw [flipBoards_nxt]
      exact Life.life_run_cur (n + 1)
    · rw [flipBoards_cur]
      exact Life.life_run_nxt n
  · intro n
    refine ⟨_, flipBoards (advanceN Rule30.nextCell (n + 1) (stateOf (gridOf [(0, 50)]))),
      Rule30.rule30_run_eq (n + 1), ?_, rfl, Rule30.rule30_run_cur (n + 1), ?_, ?_⟩
    · unfold Rule30.finalState
      rw [Rule30.rule30_run_eq]
      rfl
    · rw [flipBoards_nxt]
      exact Rule30.rule30_run_cur (n + 1)
    · rw [flipBoards_cur]
      exact Rule30.rule30_run_nxt n
  · intro h
    have h1 : Life.step^[1] (gridOf [(4, 3), (4, 4), (4, 5)]) = gridOf [(3, 4), (4, 4), (5, 4)] :=
      Life.step_vertical
    rw [h1] at h
    have h2 := congrFun (congrFun h 4) 3
    revert h2
    decide
  · intro h
    have h1 : Rule30.step^[1] (gridOf [(0, 50)]) = gridOf [(0, 49), (0, 50), (0, 51)] :=
      Rule30.step_seed
    rw [h1] at h
    have h2 := congrFun (congrFun h 0) 49
    revert h2
    decide

/-- C9: in both programs, from a state whose `current` and `next` are two
distinct boards, `updateCell(x, y)` at an in-range cell returns, leaves `current`
and both references unchanged, and changes `next` at most at cell `(x, y)`; the
full sweep returns with `current` unchanged and every `next[x][y]` equal to the
rule evaluated on the board `current` held before the sweep. -/
theorem update_reads_current_writes_next
    (sL : State Life.WIDTH Life.HEIGHT) (sR : State Rule30.WIDTH Rule30.HEIGHT)
    (hL : sL.current ≠ sL.next) (hR : sR.current ≠ sR.next) :
    ((∀ (p : Fin Life.WIDTH) (q : Fin Life.HEIGHT),
        ∃ t, Life.updateCell sL (p.val : Int) (q.val : Int) = some t ∧ t.cur = sL.cur ∧
          t.current = sL.current ∧ t.next = sL.next ∧
          t.nxt p q = Life.cellRule (sL.cur.peek (p.val : Int) (q.val : Int))
            (Life.countAt sL.cur (p.val : Int) (q.val : Int)) ∧
          ∀ (a : Fin Life.WIDTH) (b : Fin Life.HEIGHT),
            ¬ (a = p ∧ b = q) → t.nxt a b = sL.nxt a b) ∧
      (∃ t, sweep Life.updateCell sL = some t ∧ t.cur = sL.cur ∧
          t.current = sL.current ∧ t.next = sL.next ∧
          ∀ (a : Fin Life.WIDTH) (b : Fin Life.HEIGHT),
            t.nxt a b = Life.cellRule (sL.cur.peek (a.val : Int) (b.val : Int))
              (Life.countAt sL.cur (a.val : Int) (b.val : Int)))) ∧
    ((∀ (p : Fin Rule30.WIDTH) (q : Fin Rule30.HEIGHT),
        ∃ t, Rule30.updateCell sR (p.val : Int) (q.val : Int) = some t ∧ t.cur = sR.cur ∧
          t.current = sR.current ∧ t.next = sR.next ∧
          t.nxt p q = Rule30.cellRule (sR.cur.peek (p.val : Int) (goSub (q.val : Int) 1))
            (sR.cur.peek (p.val : Int) (q.val : Int))
            (sR.cur.peek (p.val : Int) (goAdd (q.val : Int) 1)) ∧
          ∀ (a : Fin Rule30.WIDTH) (b : Fin Rule30.HEIGHT),
            ¬ (a = p ∧ b = q) → t.nxt a b = sR.nxt a b) ∧
      (∃ t, sweep Rule30.updateCell sR = some t ∧ t.cur = sR.cur ∧
          t.current = sR.current ∧ t.next = sR.next ∧
          ∀ (a : Fin Rule30.WIDTH) (b : Fin Rule30.HEIGHT),
            t.nxt a b = Rule30.cellRule (sR.cur.peek (a.val : Int) (goSub (b.val : Int) 1))
              (sR.cur.peek (a.val : Int) (b.val : Int))
              (sR.cur.peek (a.val : Int) (goAdd (b.val : Int) 1)))) :=
  ⟨⟨fun p q => computes_frame Life.life_computes sL hL p q,
      sweep_frame Life.life_computes sL hL⟩,
    ⟨fun p q => computes_frame Rule30.rule30_computes sR hR p q,
      sweep_frame Rule30.rule30_computes sR hR⟩⟩

theorem update_reads_current_writes_next_witness :
    ((stateOf (gridOf [(4, 3), (4, 4), (4, 5)]) : State Life.WIDTH Life.HEIGHT).current ≠
        (stateOf (gridOf [(4, 3), (4, 4), (4, 5)]) : State Life.WIDTH Life.HEIGHT).next ∧
      (stateOf (gridOf [(0, 50)]) : State Rule30.WIDTH Rule30.HEIGHT).current ≠
        (stateOf (gridOf [(0, 50)]) : State Rule30.WIDTH Rule30.HEIGHT).next) ∧
    (((∀ (p : Fin Life.WIDTH) (q : Fin Life.HEIGHT),
        ∃ t, Life.updateCell (stateOf (gridOf [(4, 3), (4, 4), (4, 5)]) : State Life.WIDTH Life.HEIGHT) (p.val : Int) (q.val : Int) = some t ∧ t.cur = (stateOf (gridOf [(4, 3), (4, 4), (4, 5)]) : State Life.WIDTH Life.HEIGHT).cur ∧
          t.current = (stateOf (gridOf [(4, 3), (4, 4), (4, 5)]) : State Life.WIDTH Life.HEIGHT).current ∧ t.next = (stateOf (gridOf [(4, 3), (4, 4), (4, 5)]) : State Life.WIDTH Life.HEIGHT).next ∧
          t.nxt p q = Life.cellRule ((stateOf (gridOf [(4, 3), (4, 4), (4, 5)]) : State Life.WIDTH Life.HEIGHT).cur.peek (p.val : Int) (q.val : Int))
            (Life.countAt (stateOf (gridOf [(4, 3), (4, 4), (4, 5)]) : State Life.WIDTH Life.HEIGHT).cur (p.val : Int) (q.val : Int)) ∧
          ∀ (a : Fin Life.WIDTH) (b : Fin Life.HEIGHT),
            ¬ (a = p ∧ b = q) → t.nxt a b = (stateOf (gridOf [(4, 3), (4, 4), (4, 5)]) : State Life.WIDTH Life.HEIGHT).nxt a b) ∧
      (∃ t, sweep Life.updateCell (stateOf (gridOf [(4, 3), (4, 4), (4, 5)]) : State Life.WIDTH Life.HEIGHT) = some t ∧ t.cur = (stateOf (gridOf [(4, 3), (4, 4), (4, 5)]) : State Life.WIDTH Life.HEIGHT).cur ∧
          t.current = (stateOf (gridOf [(4, 3), (4, 4), (4, 5)]) : State Life.WIDTH Life.HEIGHT).current ∧ t.next = (stateOf (gridOf [(4, 3), (4, 4), (4, 5)]) : State Life.WIDTH Life.HEIGHT).next ∧
          ∀ (a : Fin Life.WIDTH) (b : Fin Life.HEIGHT),
            t.nxt a b = Life.cellRule ((stateOf (gridOf [(4, 3), (4, 4), (4, 5)]) : State Life.WIDTH Life.HEIGHT).cur.peek (a.val : Int) (b.val : Int))
              (Life.countAt (stateOf (gridOf [(4, 3), (4, 4), (4, 5)]) : State Life.WIDTH Life.HEIGHT).cur (a.val : Int) (b.val : Int)))) ∧
    ((∀ (p : Fin Rule30.WIDTH) (q : Fin Rule30.HEIGHT),
        ∃ t, Rule30.updateCell (stateOf (gridOf [(0, 50)]) : State Rule30.WIDTH Rule30.HEIGHT) (p.val : Int) (q.val : Int) = some t ∧ t.cur = (stateOf (gridOf [(0, 50)]) : State Rule30.WIDTH Rule30.HEIGHT).cur ∧
          t.current = (stateOf (gridOf [(0, 50)]) : State Rule30.WIDTH Rule30.HEIGHT).current ∧ t.next = (stateOf (gridOf [(0, 50)]) : State Rule30.WIDTH Rule30.HEIGHT).next ∧
          t.nxt p q = Rule30.cellRule ((stateOf (gridOf [(0, 50)]) : State Rule30.WIDTH Rule30.HEIGHT).cur.peek (p.val : Int) (goSub (q.val : Int) 1))
            ((stateOf (gridOf [(0, 50)]) : State Rule30.WIDTH Rule30.HEIGHT).cur.peek (p.val : Int) (q.val : Int))
            ((stateOf (gridOf [(0, 50)]) : State Rule30.WIDTH Rule30.HEIGHT).cur.peek (p.val : Int) (goAdd (q.val : Int) 1)) ∧
          ∀ (a : Fin Rule30.WIDTH) (b : Fin Rule30.HEIGHT),
            ¬ (a = p ∧ b = q) → t.nxt a b = (stateOf (gridOf [(0, 50)]) : State Rule30.WIDTH Rule30.HEIGHT).nxt a b) ∧
      (∃ t, sweep Rule30.updateCell (stateOf (gridOf [(0, 50)]) : State Rule30.WIDTH Rule30.HEIGHT) = some t ∧ t.cur = (stateOf (gridOf [(0, 50)]) : State Rule30.WIDTH Rule30.HEIGHT).cur ∧
          t.current = (stateOf (gridOf [(0, 50)]) : State Rule30.WIDTH Rule30.HEIGHT).current ∧ t.next = (stateOf (gridOf [(0, 50)]) : State Rule30.WIDTH Rule30.HEIGHT).next ∧
          ∀ (a : Fin Rule30.WIDTH) (b : Fin Rule30.HEIGHT),
            t.nxt a b = Rule30.cellRule ((stateOf (gridOf [(0, 50)]) : State Rule30.WIDTH Rule30.HEIGHT).cur.peek (a.val : Int) (goSub (b.val : Int) 1))
              ((stateOf (gridOf [(0, 50)]) : State Rule30.WIDTH Rule30.HEIGHT).cur.peek (a.val : Int) (b.val : Int))
              ((stateOf (gridOf [(0, 50)]) : State Rule30.WIDTH Rule30.HEIGHT).cur.peek (a.val : Int) (goAdd (b.val : Int) 1))))) :=
  ⟨⟨by decide, by decide⟩,
    update_reads_current_writes_next (stateOf (gridOf [(4, 3), (4, 4), (4, 5)]))
      (stateOf (gridOf [(0, 50)])) (by decide) (by decide)⟩

end Cellmata

namespace Rule30

open Cellmata

/-- C10: the value `updateCell` of `rule30.go` writes is `l != (s || r)` of the
three cells read, and for all booleans `l`, `s`, `r` that expression is bit
number `4l + 2s + r` of the number 30. -/
theorem rule_number_thirty :
    (∀ (st : State WIDTH HEIGHT) (p : Fin WIDTH) (q : Fin HEIGHT),
        updateCell st (p.val : Int) (q.val : Int) =
          assignNext st (p.val : Int) (q.val : Int)
            (cellRule (st.cur.peek (p.val : Int) (goSub (q.val : Int) 1))
              (st.cur.peek (p.val : Int) (q.val : Int))
              (st.cur.peek (p.val : Int) (goAdd (q.val : Int) 1)))) ∧
      (∀ l s r : Bool, cellRule l s r = (l != (s || r))) ∧
      (∀ l s r : Bool,
        cellRule l s r = Nat.testBit 30 (4 * l.toNat + 2 * s.toNat + r.toNat)) ∧
      cellRule true true true = false ∧ cellRule true true false = false ∧
      cellRule true false true = false ∧ cellRule true false false = true ∧
      cellRule false true true = true ∧ cellRule false true false = true ∧
      cellRule false false true = true ∧ cellRule false false false = false := by
  refine ⟨?_, fun _ _ _ => rfl, by decide, by decide, by decide, by decide, by decide,
    by decide, by decide, by decide, by decide⟩
  intro st p q
  rw [rule30_computes st p q, assignNext_val]
  rfl

end Rule30

/-! ## The swap, the initial states and the mirror at coordinate zero -/

namespace Cellmata

/-- C11: `flipBoards` exchanges the two references and touches no array: from
`current = A`, `next = B` it yields `current = B`, `next = A`, the heap (every
cell of both arrays) is unchanged, so the board behind `current` afterwards is
the one that was behind `next` and conversely, in both programs. -/
theorem flipBoards_exchanges :
    (∀ s : State Life.WIDTH Life.HEIGHT,
        (flipBoards s).current = s.next ∧ (flipBoards s).next = s.current ∧
        (flipBoards s).heap = s.heap ∧
        (flipBoards s).cur = s.nxt ∧ (flipBoards s).nxt = s.cur) ∧
      (∀ s : State Rule30.WIDTH Rule30.HEIGHT,
        (flipBoards s).current = s.next ∧ (flipBoards s).next = s.current ∧
        (flipBoards s).heap = s.heap ∧
        (flipBoards s).cur = s.nxt ∧ (flipBoards s).nxt = s.cur) :=
  ⟨fun _ => ⟨rfl, rfl, rfl, rfl, rfl⟩, fun _ => ⟨rfl, rfl, rfl, rfl, rfl⟩⟩

/-- C15: when the generation loop starts, in `single.go` `current` is `true`
exactly at (4,3), (4,4), (4,5), in `rule30.go` `current` is `true` exactly at
position 50, and in both programs every cell of `next` is `false`. -/
theorem initial_states :
    ∃ (sL : State Life.WIDTH Life.HEIGHT) (sR : State Rule30.WIDTH Rule30.HEIGHT),
      Life.initial = some sL ∧ Rule30.initial = some sR ∧
      (∀ (p : Fin Life.WIDTH) (q : Fin Life.HEIGHT), sL.cur p q = true ↔
        ((p.val = 4 ∧ q.val = 3) ∨ (p.val = 4 ∧ q.val = 4) ∨ (p.val = 4 ∧ q.val = 5))) ∧
      (∀ (p : Fin Life.WIDTH) (q : Fin Life.HEIGHT), sL.nxt p q = false) ∧
      (∀ (p : Fin Rule30.WIDTH) (q : Fin Rule30.HEIGHT), sR.cur p q = true ↔ q.val = 50) ∧
      (∀ (p : Fin Rule30.WIDTH) (q : Fin Rule30.HEIGHT), sR.nxt p q = false) := by
  refine ⟨_, _, Life.life_initial_eq, Rule30.rule30_initial_eq, ?_, ?_, ?_, ?_⟩
  · rw [stateOf_cur]
    decide
  · intro p q
    rfl
  · rw [stateOf_cur]
    decide
  · intro p q
    rfl

theorem goNeg_cases {c : Int} (h : IsInt64 c) : goNeg c = -c ∨ (goNeg c = c ∧ c = -(2 ^ 63)) := by
  unfold IsInt64 at h
  unfold goNeg wrapInt
  omega

theorem cellIndex_neg (c : Int) {N : Nat} (h : 0 < N) (hN : (N : Int) < 2 ^ 63) :
    cellIndex N (-c) = cellIndex N c := by
  rw [cellIndex_eq_natAbs (-c) h hN, cellIndex_eq_natAbs c h hN, Int.natAbs_neg]

theorem cellIndex_of_nonneg {c : Int} (hc : 0 ≤ c) {N : Nat} (h : 0 < N)
    (hN : (N : Int) < 2 ^ 63) : cellIndex N c = c % (N : Int) := by
  rw [cellIndex_eq_natAbs c h hN]
  obtain ⟨m, rfl⟩ := Int.eq_ofNat_of_zero_le hc
  simp

/-- C16: for every integer `c` and every extent `N > 0` that is an `int`, the
index `getCell` uses is `|c| mod N`; it is the non-negative remainder of `c`
when `c >= 0`, it is the same for `c` and `-c` (also with the negation computed
in 64 bits), and for `N >= 2` the coordinate -1 gets index 1. -/
theorem cellIndex_mirror (c : Int) (N : Nat) (hpos : 0 < N) (hN : (N : Int) < 2 ^ 63) :
    cellIndex N c = ((c.natAbs % N : Nat) : Int) ∧
      (0 ≤ c → cellIndex N c = c % (N : Int)) ∧
      cellIndex N (-c) = cellIndex N c ∧
      (IsInt64 c → cellIndex N (goNeg c) = cellIndex N c) ∧
      (2 ≤ N → cellIndex N (-1) = 1) := by
  refine ⟨cellIndex_eq_natAbs c hpos hN, fun hc => cellIndex_of_nonneg hc hpos hN,
    cellIndex_neg c hpos hN, ?_, ?_⟩
  · intro hc
    rcases goNeg_cases hc with h | ⟨h, _⟩
    · rw [h]
      exact cellIndex_neg c hpos hN
    · rw [h]
  · intro h2
    rw [cellIndex_eq_natAbs (-1) hpos hN]
    have : (1 : Nat) % N = 1 := Nat.mod_eq_of_lt (by omega)
    simp [this]

theorem cellIndex_mirror_witness :
    (0 < 10 ∧ ((10 : Nat) : Int) < 2 ^ 63) ∧
      (cellIndex 10 13 = (((13 : Int).natAbs % 10 : Nat) : Int) ∧
      (0 ≤ (13 : Int) → cellIndex 10 13 = 13 % ((10 : Nat) : Int)) ∧
      cellIndex 10 (-13) = cellIndex 10 13 ∧
      (IsInt64 13 → cellIndex 10 (goNeg 13) = cellIndex 10 13) ∧
      (2 ≤ 10 → cellIndex 10 (-1) = 1)) :=
  ⟨⟨by decide, by decide⟩, cellIndex_mirror 13 10 (by decide) (by decide)⟩

end Cellmata

/-! ## Order of the sweep -/

namespace Cellmata

theorem updateAll_store {W H : Nat} {upd : State W H → Int → Int → Option (State W H)}
    {f : Grid W H → Int → Int → Bool} (hupd : Computes upd f)
    (s : State W H) (hne : s.current ≠ s.next) (cells : List (Fin W × Fin H)) (g : Grid W H) :
    updateAll upd cells (s.store s.next g) =
      some (s.store s.next
        (fun a b => if (a, b) ∈ cells then f s.cur (a.val : Int) (b.val : Int) else g a b)) := by
  induction cells generalizing g with
  | nil => simp [updateAll]
  | cons c cells ih =>
    have h := upd_store hupd s hne g c.1 c.2
    have ih' := ih (g.set c.1 c.2 (f s.cur (c.1.val : Int) (c.2.val : Int)))
    unfold updateAll at ih' ⊢
    rw [List.foldlM_cons, h]
    simp only [Option.some_bind, Option.bind_eq_bind]
    rw [ih']
    congr 2
    funext a b
    by_cases hmem : (a, b) ∈ cells
    · simp [hmem]
    · by_cases hc : a = c.1 ∧ b = c.2
      · obtain ⟨rfl, rfl⟩ := hc
        simp [Grid.set]
      · have hc' : (a, b) ≠ c := by
          intro h
          apply hc
          rw [← h]
          exact ⟨rfl, rfl⟩
        simp [hmem, Grid.set, hc, hc']

theorem updateAll_eq {W H : Nat} {upd : State W H → Int → Int → Option (State W H)}
    {f : Grid W H → Int → Int → Bool} (hupd : Computes upd f)
    (s : State W H) (hne : s.current ≠ s.next) (cells : List (Fin W × Fin H)) :
    updateAll upd cells s =
      some (s.store s.next
        (fun a b => if (a, b) ∈ cells then f s.cur (a.val : Int) (b.val : Int)
          else s.nxt a b)) := by
  have h := updateAll_store hupd s hne cells s.nxt
  rw [store_self] at h
  exact h

/-- Two traversals that visit the same set of cells end in the same state. -/
theorem updateAll_congr {W H : Nat} {upd : State W H → Int → Int → Option (State W H)}
    {f : Grid W H → Int → Int → Bool} (hupd : Computes upd f)
    (s : State W H) (hne : s.current ≠ s.next) (l1 l2 : List (Fin W × Fin H))
    (hmem : ∀ c, c ∈ l1 ↔ c ∈ l2) :
    updateAll upd l1 s = updateAll upd l2 s := by
  rw [updateAll_eq hupd s hne, updateAll_eq hupd s hne]
  congr 2
  funext a b
  simp only [hmem]

theorem updateAll_pair {W H : Nat} (upd : State W H → Int → Int → Option (State W H))
    (s : State W H) (a b : Fin W × Fin H) :
    updateAll upd [a, b] s =
      (upd s (a.1.val : Int) (a.2.val : Int)).bind
        (fun t => upd t (b.1.val : Int) (b.2.val : Int)) := by
  unfold updateAll
  simp only [List.foldlM_cons, List.foldlM_nil, Option.bind_eq_bind]
  cases upd s (a.1.val : Int) (a.2.val : Int) with
  | none => rfl
  | some t =>
    simp only [Option.some_bind]
    cases upd t (b.1.val : Int) (b.2.val : Int) <;> rfl

theorem updateAll_swap {W H : Nat} {upd : State W H → Int → Int → Option (State W H)}
    {f : Grid W H → Int → Int → Bool} (hupd : Computes upd f)
    (s : State W H) (hne : s.current ≠ s.next) (a b : Fin W × Fin H) :
    (∃ t, (upd s (a.1.val : Int) (a.2.val : Int)).bind
        (fun t => upd t (b.1.val : Int) (b.2.val : Int)) = some t) ∧
    (upd s (a.1.val : Int) (a.2.val : Int)).bind
        (fun t => upd t (b.1.val : Int) (b.2.val : Int)) =
      (upd s (b.1.val : Int) (b.2.val : Int)).bind
        (fun t => upd t (a.1.val : Int) (a.2.val : Int)) := by
  rw [← updateAll_pair, ← updateAll_pair]
  refine ⟨⟨_, updateAll_eq hupd s hne [a, b]⟩, ?_⟩
  apply updateAll_congr hupd s hne
  intro c
  simp only [List.mem_cons, List.mem_singleton, List.not_mem_nil, or_false]
  exact Or.comm

theorem updateAll_every {W H : Nat} {upd : State W H → Int → Int → Option (State W H)}
    {f : Grid W H → Int → Int → Bool} (hupd : Computes upd f)
    (s : State W H) (hne : s.current ≠ s.next) (cells : List (Fin W × Fin H))
    (hall : ∀ c, c ∈ cells) :
    updateAll upd cells s = sweep upd s := by
  rw [updateAll_eq hupd s hne, sweep_eq hupd s hne]
  congr 2
  funext a b
  simp [hall]

/-- C14: in both programs, from a state whose `current` and `next` are two
distinct boards, `updateCell` at in-range cells `a` then `b` returns the same
state as at `b` then `a`; and the calls of `updateCell` over any list that
contains every cell, in the order of the list, return the state of the
row-by-row sweep of `main`. -/
theorem sweep_order_independent
    (sL : State Life.WIDTH Life.HEIGHT) (sR : State Rule30.WIDTH Rule30.HEIGHT)
    (hL : sL.current ≠ sL.next) (hR : sR.current ≠ sR.next) :
    ((∀ a b : Fin Life.WIDTH × Fin Life.HEIGHT,
        (∃ t, (Life.updateCell sL (a.1.val : Int) (a.2.val : Int)).bind
            (fun t => Life.updateCell t (b.1.val : Int) (b.2.val : Int)) = some t) ∧
        (Life.updateCell sL (a.1.val : Int) (a.2.val : Int)).bind
            (fun t => Life.updateCell t (b.1.val : Int) (b.2.val : Int)) =
          (Life.updateCell sL (b.1.val : Int) (b.2.val : Int)).bind
            (fun t => Life.updateCell t (a.1.val : Int) (a.2.val : Int))) ∧
      (∃ t, sweep Life.updateCell sL = some t) ∧
      (∀ cells : List (Fin Life.WIDTH × Fin Life.HEIGHT), (∀ c, c ∈ cells) →
        updateAll Life.updateCell cells sL = sweep Life.updateCell sL)) ∧
    ((∀ a b : Fin Rule30.WIDTH × Fin Rule30.HEIGHT,
        (∃ t, (Rule30.updateCell sR (a.1.val : Int) (a.2.val : Int)).bind
            (fun t => Rule30.updateCell t (b.1.val : Int) (b.2.val : Int)) = some t) ∧
        (Rule30.updateCell sR (a.1.val : Int) (a.2.val : Int)).bind
            (fun t => Rule30.updateCell t (b.1.val : Int) (b.2.val : Int)) =
          (Rule30.updateCell sR (b.1.val : Int) (b.2.val : Int)).bind
            (fun t => Rule30.updateCell t (a.1.val : Int) (a.2.val : Int))) ∧
      (∃ t, sweep Rule30.updateCell sR = some t) ∧
      (∀ cells : List (Fin Rule30.WIDTH × Fin Rule30.HEIGHT), (∀ c, c ∈ cells) →
        updateAll Rule30.updateCell cells sR = sweep Rule30.updateCell sR)) :=
  ⟨⟨fun a b => updateAll_swap Life.life_computes sL hL a b,
      ⟨_, sweep_eq Life.life_computes sL hL⟩,
      fun cells hall => updateAll_every Life.life_computes sL hL cells hall⟩,
    ⟨fun a b => updateAll_swap Rule30.rule30_computes sR hR a b,
      ⟨_, sweep_eq Rule30.rule30_computes sR hR⟩,
      fun cells hall => updateAll_every Rule30.rule30_computes sR hR cells hall⟩⟩

theorem sweep_order_independent_witness :
    ((stateOf (gridOf [(4, 3), (4, 4), (4, 5)]) : State Life.WIDTH Life.HEIGHT).current ≠
        (stateOf (gridOf [(4, 3), (4, 4), (4, 5)]) : State Life.WIDTH Life.HEIGHT).next ∧
      (stateOf (gridOf [(0, 50)]) : State Rule30.WIDTH Rule30.HEIGHT).current ≠
        (stateOf (gridOf [(0, 50)]) : State Rule30.WIDTH Rule30.HEIGHT).next) ∧
    (((∀ a b : Fin Life.WIDTH × Fin Life.HEIGHT,
        (∃ t, (Life.updateCell (stateOf (gridOf [(4, 3), (4, 4), (4, 5)]) : State Life.WIDTH Life.HEIGHT) (a.1.val : Int) (a.2.val : Int)).bind
            (fun t => Life.updateCell t (b.1.val : Int) (b.2.val : Int)) = some t) ∧
        (Life.updateCell (stateOf (gridOf [(4, 3), (4, 4), (4, 5)]) : State Life.WIDTH Life.HEIGHT) (a.1.val : Int) (a.2.val : Int)).bind
            (fun t => Life.updateCell t (b.1.val : Int) (b.2.val : Int)) =
          (Life.updateCell (stateOf (gridOf [(4, 3), (4, 4), (4, 5)]) : State Life.WIDTH Life.HEIGHT) (b.1.val : Int) (b.2.val : Int)).bind
            (fun t => Life.updateCell t (a.1.val : Int) (a.2.val : Int))) ∧
      (∃ t, sweep Life.updateCell (stateOf (gridOf [(4, 3), (4, 4), (4, 5)]) : State Life.WIDTH Life.HEIGHT) = some t) ∧
      (∀ cells : List (Fin Life.WIDTH × Fin Life.HEIGHT), (∀ c, c ∈ cells) →
        updateAll Life.updateCell cells (stateOf (gridOf [(4, 3), (4, 4), (4, 5)]) : State Life.WIDTH Life.HEIGHT) = sweep Life.updateCell (stateOf (gridOf [(4, 3), (4, 4), (4, 5)]) : State Life.WIDTH Life.HEIGHT))) ∧
    ((∀ a b : Fin Rule30.WIDTH × Fin Rule30.HEIGHT,
        (∃ t, (Rule30.updateCell (stateOf (gridOf [(0, 50)]) : State Rule30.WIDTH Rule30.HEIGHT) (a.1.val : Int) (a.2.val : Int)).bind
            (fun t => Rule30.updateCell t (b.1.val : Int) (b.2.val : Int)) = some t) ∧
        (Rule30.updateCell (stateOf (gridOf [(0, 50)]) : State Rule30.WIDTH Rule30.HEIGHT) (a.1.val : Int) (a.2.val : Int)).bind
            (fun t => Rule30.updateCell t (b.1.val : Int) (b.2.val : Int)) =
          (Rule30.updateCell (stateOf (gridOf [(0, 50)]) : State Rule30.WIDTH Rule30.HEIGHT) (b.1.val : Int) (b.2.val : Int)).bind
            (fun t => Rule30.updateCell t (a.1.val : Int) (a.2.val : Int))) ∧
      (∃ t, sweep Rule30.updateCell (stateOf (gridOf [(0, 50)]) : State Rule30.WIDTH Rule30.HEIGHT) = some t) ∧
      (∀ cells : List (Fin Rule30.WIDTH × Fin Rule30.HEIGHT), (∀ c, c ∈ cells) →
        updateAll Rule30.updateCell cells (stateOf (gridOf [(0, 50)]) : State Rule30.WIDTH Rule30.HEIGHT) = sweep Rule30.updateCell (stateOf (gridOf [(0, 50)]) : State Rule30.WIDTH Rule30.HEIGHT)))) :=
  ⟨⟨by decide, by decide⟩,
    sweep_order_independent (stateOf (gridOf [(4, 3), (4, 4), (4, 5)]))
      (stateOf (gridOf [(0, 50)])) (by decide) (by decide)⟩

end Cellmata

/-! ## Away from row, column and position zero -/

namespace Cellmata

theorem goAdd_exact {a b : Int} (h : IsInt64 (a + b)) : goAdd a b = a + b :=
  wrapInt_of_isInt64 h

theorem goSub_exact {a b : Int} (h : IsInt64 (a - b)) : goSub a b = a - b :=
  wrapInt_of_isInt64 h

theorem toFin_cellIndex_of_nonneg {c : Int} (hc : 0 ≤ c) {N : Nat} [NeZero N]
    (hN : (N : Int) < 2 ^ 63) : toFin N (cellIndex N c) = torusIndex N c := by
  unfold torusIndex
  rw [cellIndex_of_nonneg hc (NeZero.pos N) hN]

theorem torusIndex_val {N : Nat} [NeZero N] (p : Fin N) : torusIndex N (p.val : Int) = p := by
  apply Fin.ext
  have h := p.isLt
  simp only [torusIndex, toFin]
  rw [Int.emod_eq_of_lt (by omega) (by omega)]
  simp [Nat.mod_eq_of_lt h]

end Cellmata

namespace Life

open Cellmata

theorem peek_offset (g : Grid WIDTH HEIGHT) (p : Fin WIDTH) (q : Fin HEIGHT)
    (hp : 1 ≤ p.val) (hq : 1 ≤ q.val) (dx dy : Int)
    (hdx : -1 ≤ dx ∧ dx ≤ 1) (hdy : -1 ≤ dy ∧ dy ≤ 1) :
    g.peek (goAdd (p.val : Int) dx) (goAdd (q.val : Int) dy) =
      g (torusIndex WIDTH ((p.val : Int) + dx)) (torusIndex HEIGHT ((q.val : Int) + dy)) := by
  have h1 := p.isLt
  have h2 := q.isLt
  unfold WIDTH at h1
  unfold HEIGHT at h2
  rw [goAdd_exact (by unfold IsInt64; omega), goAdd_exact (by unfold IsInt64; omega)]
  unfold Grid.peek
  rw [toFin_cellIndex_of_nonneg (by omega) width_lt,
    toFin_cellIndex_of_nonneg (by omega) height_lt]

theorem peek_self (g : Grid WIDTH HEIGHT) (p : Fin WIDTH) (q : Fin HEIGHT) :
    g.peek (p.val : Int) (q.val : Int) = g p q := by
  unfold Grid.peek
  rw [toFin_cellIndex_of_nonneg (by omega) width_lt,
    toFin_cellIndex_of_nonneg (by omega) height_lt, torusIndex_val, torusIndex_val]

theorem count_eight (b1 b2 b3 b4 b5 b6 b7 b8 : Bool) :
    [b1, b2, b3, b4, b5, b6, b7, b8].foldl
        (fun (n : Int) (b : Bool) => if b then goAdd n 1 else goAdd n 0) 0 =
      (([b1, b2, b3, b7, b8, b4, b5, b6].filter id).length : Int) := by
  revert b1 b2 b3 b4 b5 b6 b7 b8
  decide!

end Life

namespace Life

open Cellmata

theorem filter_map_length {α : Type} (l : List α) (P : α → Bool) :
    ((l.map P).filter id).length = (l.filter P).length := by
  induction l with
  | nil => rfl
  | cons a l ih =>
    simp only [List.map_cons, List.filter_cons, id]
    cases P a <;> simp [ih]

theorem countAt_interior (g : Grid WIDTH HEIGHT) (p : Fin WIDTH) (q : Fin HEIGHT)
    (hp : 1 ≤ p.val) (hq : 1 ≤ q.val) :
    countAt g (p.val : Int) (q.val : Int) = torusCount g p q := by
  have hR : torusCount g p q =
      (((mooreOffsets.map (fun d => g (torusIndex WIDTH ((p.val : Int) + d.1))
        (torusIndex HEIGHT ((q.val : Int) + d.2)))).filter id).length : Int) := by
    rw [filter_map_length]
    rfl
  have hL : countAt g (p.val : Int) (q.val : Int) =
      [g.peek (goAdd (p.val : Int) (-1)) (goAdd (q.val : Int) (-1)),
        g.peek (goAdd (p.val : Int) (-1)) (goAdd (q.val : Int) 0),
        g.peek (goAdd (p.val : Int) (-1)) (goAdd (q.val : Int) 1),
        g.peek (goAdd (p.val : Int) 1) (goAdd (q.val : Int) (-1)),
        g.peek (goAdd (p.val : Int) 1) (goAdd (q.val : Int) 0),
        g.peek (goAdd (p.val : Int) 1) (goAdd (q.val : Int) 1),
        g.peek (goAdd (p.val : Int) 0) (goAdd (q.val : Int) (-1)),
        g.peek (goAdd (p.val : Int) 0) (goAdd (q.val : Int) 1)].foldl
        (fun (n : Int) (b : Bool) => if b then goAdd n 1 else goAdd n 0) 0 := rfl
  rw [hL, hR]
  rw [peek_offset g p q hp hq (-1) (-1) (by omega) (by omega),
    peek_offset g p q hp hq (-1) 0 (by omega) (by omega),
    peek_offset g p q hp hq (-1) 1 (by omega) (by omega),
    peek_offset g p q hp hq 1 (-1) (by omega) (by omega),
    peek_offset g p q hp hq 1 0 (by omega) (by omega),
    peek_offset g p q hp hq 1 1 (by omega) (by omega),
    peek_offset g p q hp hq 0 (-1) (by omega) (by omega),
    peek_offset g p q hp hq 0 1 (by omega) (by omega)]
  exact count_eight _ _ _ _ _ _ _ _

theorem cellRule_eq_b3s23 (s : Bool) (n : Int) : cellRule s n = b3s23 s n := by
  cases s <;> simp [cellRule, b3s23] <;> rfl

/-- C17: in `single.go`, for every board behind `current` and every cell
`(x, y)` with `1 <= x <= 9` and `1 <= y <= 9`, the count `n` that `updateCell`
computes is the number of alive cells among the eight toroidal Moore neighbours
(coordinates reduced to their non-negative remainder modulo 10), and the value
written to `next[x][y]` is B3/S23 of the cell and that count. -/
theorem life_step_interior (st : State WIDTH HEIGHT) (p : Fin WIDTH) (q : Fin HEIGHT)
    (hp : 1 ≤ p.val) (hq : 1 ≤ q.val) :
    countNeighs st (p.val : Int) (q.val : Int) = some (torusCount st.cur p q) ∧
      ∃ t, updateCell st (p.val : Int) (q.val : Int) = some t ∧
        t.nxt p q = b3s23 (st.cur p q) (torusCount st.cur p q) := by
  refine ⟨?_, _, life_computes st p q, ?_⟩
  · rw [countNeighs_eq, countAt_interior st.cur p q hp hq]
  · rw [store_nxt]
    unfold nextCell
    rw [countAt_interior st.cur p q hp hq, peek_self, cellRule_eq_b3s23]
    simp [Grid.set]

theorem life_step_interior_witness :
    (1 ≤ (9 : Fin WIDTH).val ∧ 1 ≤ (1 : Fin HEIGHT).val) ∧
      (countNeighs (stateOf (gridOf [(0, 0), (0, 1), (9, 2), (8, 1)]) : State WIDTH HEIGHT)
          ((9 : Fin WIDTH).val : Int) ((1 : Fin HEIGHT).val : Int) =
        some (torusCount (stateOf (gridOf [(0, 0), (0, 1), (9, 2), (8, 1)]) : State WIDTH HEIGHT).cur
          9 1) ∧
      ∃ t : State WIDTH HEIGHT,
        updateCell (stateOf (gridOf [(0, 0), (0, 1), (9, 2), (8, 1)]) : State WIDTH HEIGHT)
          ((9 : Fin WIDTH).val : Int) ((1 : Fin HEIGHT).val : Int) = some t ∧
        t.nxt 9 1 =
          b3s23 ((stateOf (gridOf [(0, 0), (0, 1), (9, 2), (8, 1)]) : State WIDTH HEIGHT).cur 9 1)
            (torusCount (stateOf (gridOf [(0, 0), (0, 1), (9, 2), (8, 1)]) : State WIDTH HEIGHT).cur
              9 1)) :=
  ⟨⟨by decide, by decide⟩,
    life_step_interior (stateOf (gridOf [(0, 0), (0, 1), (9, 2), (8, 1)])) 9 1
      (by decide) (by decide)⟩

end Life

namespace Rule30

open Cellmata

theorem fin_width_eq (a b : Fin WIDTH) : a = b := by
  apply Fin.ext
  have h1 := a.isLt
  have h2 := b.isLt
  unfold WIDTH at h1 h2
  omega

theorem peek_nonneg (g : Grid WIDTH HEIGHT) (x : Int) {c : Int} (hc : 0 ≤ c) :
    g.peek x c = g 0 (torusIndex HEIGHT c) := by
  unfold Grid.peek
  rw [toFin_cellIndex_of_nonneg hc rule30_height_lt]
  exact congrFun (congrArg g (fin_width_eq _ _)) _

theorem torusIndex_pred (q : Fin HEIGHT) (hq : 1 ≤ q.val) :
    torusIndex HEIGHT ((q.val : Int) - 1) = ⟨q.val - 1, by omega⟩ := by
  apply Fin.ext
  have h := q.isLt
  simp only [torusIndex, toFin]
  unfold HEIGHT at h ⊢
  omega

theorem torusIndex_succ (q : Fin HEIGHT) :
    torusIndex HEIGHT ((q.val : Int) + 1) = ⟨(q.val + 1) % 100, Nat.mod_lt _ (by decide)⟩ := by
  apply Fin.ext
  have h := q.isLt
  simp only [torusIndex, toFin]
  unfold HEIGHT at h ⊢
  omega

theorem nextCell_interior (g : Grid WIDTH HEIGHT) (q : Fin HEIGHT) (hq : 1 ≤ q.val) :
    nextCell g 0 (q.val : Int) = torusNext g q := by
  have h := q.isLt
  unfold HEIGHT at h
  unfold nextCell torusNext cellRule
  rw [goSub_exact (by unfold IsInt64; omega), goAdd_exact (by unfold IsInt64; omega),
    peek_nonneg g 0 (by omega), peek_nonneg g 0 (by omega), peek_nonneg g 0 (by omega),
    torusIndex_val]

/-- C20: in `rule30.go`, for every board behind `current` and every position
`y` with `1 <= y <= 99`, `updateCell(0, y)` returns and writes
`next[0][y] = current[0][y-1] XOR (current[0][y] OR current[0][(y+1) mod 100])`,
so that position 99 takes position 0 as its right neighbour. -/
theorem rule30_step_interior (st : State WIDTH HEIGHT) (q : Fin HEIGHT) (hq : 1 ≤ q.val) :
    ∃ t, updateCell st 0 (q.val : Int) = some t ∧
      t.nxt 0 q =
        xor (st.cur 0 ⟨q.val - 1, by omega⟩)
          (st.cur 0 q || st.cur 0 ⟨(q.val + 1) % 100, Nat.mod_lt _ (by decide)⟩) ∧
      t.nxt 0 q = torusNext st.cur q := by
  have hw := rule30_computes st 0 q
  refine ⟨_, hw, ?_, ?_⟩
  · rw [store_nxt]
    simp only [Grid.set, and_self, if_true]
    rw [← torusIndex_pred q hq, ← torusIndex_succ q]
    exact nextCell_interior st.cur q hq
  · rw [store_nxt]
    simp only [Grid.set, and_self, if_true]
    exact nextCell_interior st.cur q hq

theorem rule30_step_interior_witness :
    1 ≤ (99 : Fin HEIGHT).val ∧
      ∃ t : State WIDTH HEIGHT,
        updateCell (stateOf (gridOf [(0, 0), (0, 98)])) 0 ((99 : Fin HEIGHT).val : Int) =
          some t ∧
        t.nxt 0 99 =
          xor ((stateOf (gridOf [(0, 0), (0, 98)]) : State WIDTH HEIGHT).cur 0
              ⟨(99 : Fin HEIGHT).val - 1, by omega⟩)
            ((stateOf (gridOf [(0, 0), (0, 98)]) : State WIDTH HEIGHT).cur 0 99 ||
              (stateOf (gridOf [(0, 0), (0, 98)]) : State WIDTH HEIGHT).cur 0
                ⟨((99 : Fin HEIGHT).val + 1) % 100, Nat.mod_lt _ (by decide)⟩) ∧
        t.nxt 0 99 = torusNext (stateOf (gridOf [(0, 0), (0, 98)]) : State WIDTH HEIGHT).cur 99 :=
  ⟨by decide, rule30_step_interior (stateOf (gridOf [(0, 0), (0, 98)])) 99 (by decide)⟩

end Rule30

/-! ## The two runs, generation by generation -/

namespace Life

open Cellmata

theorem step_iterate (k : Nat) :
    step^[k] (gridOf [(4, 3), (4, 4), (4, 5)]) =
      if k % 2 = 0 then gridOf [(4, 3), (4, 4), (4, 5)] else gridOf [(3, 4), (4, 4), (5, 4)] := by
  induction k with
  | zero => rfl
  | succ k ih =>
    rw [Function.iterate_succ_apply', ih]
    by_cases h : k % 2 = 0
    · have h1 : ¬ (k + 1) % 2 = 0 := by omega
      rw [if_pos h, if_neg h1, step_vertical]
    · have h1 : (k + 1) % 2 = 0 := by omega
      rw [if_neg h, if_pos h1, step_horizontal]

theorem vertical_cells (p : Fin WIDTH) (q : Fin HEIGHT) :
    (gridOf [(4, 3), (4, 4), (4, 5)] : Grid WIDTH HEIGHT) p q = true ↔
      ((p.val = 4 ∧ q.val = 3) ∨ (p.val = 4 ∧ q.val = 4) ∨ (p.val = 4 ∧ q.val = 5)) := by
  revert p q
  decide

theorem horizontal_cells (p : Fin WIDTH) (q : Fin HEIGHT) :
    (gridOf [(3, 4), (4, 4), (5, 4)] : Grid WIDTH HEIGHT) p q = true ↔
      ((p.val = 3 ∧ q.val = 4) ∨ (p.val = 4 ∧ q.val = 4) ∨ (p.val = 5 ∧ q.val = 4)) := by
  revert p q
  decide

/-- C19: after `k` iterations of the generation loop of `single.go`, for every
`k`, `current` is alive exactly at (4,3), (4,4), (4,5) when `k` is even and
exactly at (3,4), (4,4), (5,4) when `k` is odd; and after the 1,000,000
iterations and the extra `flipBoards` of `main`, the board behind `current` is
alive exactly at (3,4), (4,4), (5,4) and the board behind `next` exactly at
(4,3), (4,4), (4,5). -/
theorem blinker_every_generation :
    (∀ k : Nat, ∃ s, run k = some s ∧
        ∀ (p : Fin WIDTH) (q : Fin HEIGHT), s.cur p q = true ↔
          if k % 2 = 0 then
            ((p.val = 4 ∧ q.val = 3) ∨ (p.val = 4 ∧ q.val = 4) ∨ (p.val = 4 ∧ q.val = 5))
          else
            ((p.val = 3 ∧ q.val = 4) ∨ (p.val = 4 ∧ q.val = 4) ∨ (p.val = 5 ∧ q.val = 4))) ∧
      (∃ s, finalState ITERATIONS = some s ∧
        (∀ (p : Fin WIDTH) (q : Fin HEIGHT), s.cur p q = true ↔
          ((p.val = 3 ∧ q.val = 4) ∨ (p.val = 4 ∧ q.val = 4) ∨ (p.val = 5 ∧ q.val = 4))) ∧
        (∀ (p : Fin WIDTH) (q : Fin HEIGHT), s.nxt p q = true ↔
          ((p.val = 4 ∧ q.val = 3) ∨ (p.val = 4 ∧ q.val = 4) ∨ (p.val = 4 ∧ q.val = 5)))) := by
  constructor
  · intro k
    refine ⟨_, life_run_eq k, ?_⟩
    intro p q
    rw [life_run_cur, step_iterate]
    by_cases h : k % 2 = 0
    · rw [if_pos h, if_pos h]
      exact vertical_cells p q
    · rw [if_neg h, if_neg h]
      exact horizontal_cells p q
  · have hI : ITERATIONS = 999999 + 1 := rfl
    refine ⟨flipBoards (advanceN nextCell (999999 + 1)
      (stateOf (gridOf [(4, 3), (4, 4), (4, 5)]))), ?_, ?_, ?_⟩
    · unfold finalState
      rw [hI, life_run_eq]
      rfl
    · intro p q
      rw [flipBoards_cur, life_run_nxt, step_iterate, if_neg (by decide)]
      exact horizontal_cells p q
    · intro p q
      rw [flipBoards_nxt, life_run_cur, step_iterate, if_pos (by decide)]
      exact vertical_cells p q

end Life

namespace Rule30

open Cellmata

theorem step_generationCells (k : Fin 10) :
    step (gridOf (generationCells k.val)) = gridOf (generationCells (k.val + 1)) := by
  funext p q
  revert k p q
  decide!

theorem torusStep_generationCells (k : Fin 10) :
    torusStep (gridOf (generationCells k.val)) = gridOf (generationCells (k.val + 1)) := by
  funext p q
  revert k p q
  decide!

theorem step_iterate_cells (k : Nat) (hk : k ≤ 10) :
    step^[k] (gridOf [(0, 50)]) = gridOf (generationCells k) := by
  induction k with
  | zero => rfl
  | succ k ih =>
    rw [Function.iterate_succ_apply', ih (by omega)]
    exact step_generationCells ⟨k, by omega⟩

theorem torusStep_iterate_cells (k : Nat) (hk : k ≤ 10) :
    torusStep^[k] (gridOf [(0, 50)]) = gridOf (generationCells k) := by
  induction k with
  | zero => rfl
  | succ k ih =>
    rw [Function.iterate_succ_apply', ih (by omega)]
    exact torusStep_generationCells ⟨k, by omega⟩

theorem generationCells_span (k : Fin 11) (p : Fin WIDTH) (q : Fin HEIGHT) :
    (gridOf (generationCells k.val) : Grid WIDTH HEIGHT) p q = true →
      50 - k.val ≤ q.val ∧ q.val ≤ 50 + k.val := by
  revert k p q
  decide!

/-- C18: for every `k` from 0 to 10, the run of `rule30.go` for `k` generations
returns, the board behind `current` equals the board obtained by `k` generations
of `next[y] = cur[(y-1) mod 100] XOR (cur[y] OR cur[(y+1) mod 100])` on the torus
from the same seed, and every cell that is on lies in positions `50-k` to
`50+k`. -/
theorem run_agrees_with_torus (k : Nat) (hk : k ≤ 10) :
    ∃ s, run k = some s ∧ s.cur = torusStep^[k] (gridOf [(0, 50)]) ∧
      ∀ (p : Fin WIDTH) (q : Fin HEIGHT),
        s.cur p q = true → 50 - k ≤ q.val ∧ q.val ≤ 50 + k := by
  refine ⟨_, rule30_run_eq k, ?_, ?_⟩
  · rw [rule30_run_cur, step_iterate_cells k hk, torusStep_iterate_cells k hk]
  · intro p q
    rw [rule30_run_cur, step_iterate_cells k hk]
    exact generationCells_span ⟨k, by omega⟩ p q

theorem run_agrees_with_torus_witness :
    10 ≤ 10 ∧
      ∃ s, run 10 = some s ∧ s.cur = torusStep^[10] (gridOf [(0, 50)]) ∧
        ∀ (p : Fin WIDTH) (q : Fin HEIGHT),
          s.cur p q = true → 50 - 10 ≤ q.val ∧ q.val ≤ 50 + 10 :=
  ⟨by decide, run_agrees_with_torus 10 (by decide)⟩

end Rule30

/-! ## The printer -/

namespace Cellmata

theorem cellString_data (b : Bool) : (cellString b).data = [cellChar b] := by
  cases b <;> rfl

theorem append_cellString (buf : String) (b : Bool) :
    buf ++ cellString b = String.mk (buf.data ++ [cellChar b]) := by
  apply String.ext
  rw [String.data_append, cellString_data]

theorem append_data (buf t : String) : buf ++ t = String.mk (buf.data ++ t.data) := by
  apply String.ext
  rw [String.data_append]

theorem foldlM_cells (l : List Nat) (f : Nat → Option Bool) (v : Nat → Bool)
    (h : ∀ y ∈ l, f y = some (v y)) (buf : String) :
    l.foldlM (fun buf (y : Nat) => do
        let c ← f y
        pure (buf ++ cellString c)) buf =
      some (String.mk (buf.data ++ l.map (fun y => cellChar (v y)))) := by
  induction l generalizing buf with
  | nil => simp
  | cons y l ih =>
    have e := ih (fun z hz => h z (List.mem_cons_of_mem y hz)) (buf ++ cellString (v y))
    rw [List.foldlM_cons, h y (List.mem_cons_self y l)]
    simp only [Option.some_bind, Option.bind_eq_bind, Option.pure_def] at e ⊢
    rw [e, append_cellString]
    simp

theorem foldlM_lines (l : List Nat) (body : String → Nat → Option String)
    (line : Nat → List Char)
    (h : ∀ x ∈ l, ∀ buf : String, body buf x = some (String.mk (buf.data ++ line x)))
    (buf : String) :
    l.foldlM body buf = some (String.mk (buf.data ++ (l.map line).flatten)) := by
  induction l generalizing buf with
  | nil => simp
  | cons x l ih =>
    have e := ih (fun z hz => h z (List.mem_cons_of_mem x hz))
      (String.mk (buf.data ++ line x))
    rw [List.foldlM_cons, h x (List.mem_cons_self x l) buf]
    simp only [Option.some_bind, Option.bind_eq_bind] at e ⊢
    rw [e]
    simp

theorem toFin_val {n : Nat} [NeZero n] (p : Fin n) : toFin n (p.val : Int) = p := by
  apply Fin.ext
  simp [toFin, Nat.mod_eq_of_lt p.isLt]

theorem map_range_toFin {α : Type} {n : Nat} [NeZero n] (f : Fin n → α) :
    (List.range n).map (fun (y : Nat) => f (toFin n (y : Int))) = List.ofFn f := by
  apply List.ext_getElem
  · simp
  · intro i h1 h2
    have hi : i < n := by simpa using h1
    have := toFin_val (⟨i, hi⟩ : Fin n)
    simp only at this
    simp [this]

end Cellmata

namespace Cellmata

theorem cellIndex_of_lt {N : Nat} (hN : (N : Int) < 2 ^ 63) {c : Nat} (hc : c < N) :
    cellIndex N (c : Int) = (c : Int) := by
  rw [cellIndex_of_nonneg (by omega) (by omega) hN]
  exact Int.emod_eq_of_lt (by omega) (by omega)

theorem getCell_inRange {W H : Nat} [NeZero W] [NeZero H] (hW : (W : Int) < 2 ^ 63)
    (hH : (H : Int) < 2 ^ 63) (s : State W H) {x y : Nat} (hx : x < W) (hy : y < H) :
    getCell s (x : Int) (y : Int) = some (s.cur (toFin W (x : Int)) (toFin H (y : Int))) := by
  rw [getCell_eq hW hH]
  unfold Grid.peek
  rw [cellIndex_of_lt hW hx, cellIndex_of_lt hH hy]

theorem read_inRange {W H : Nat} [NeZero W] [NeZero H] (g : Grid W H) {x y : Nat}
    (hx : x < W) (hy : y < H) :
    g.read (x : Int) (y : Int) = some (g (toFin W (x : Int)) (toFin H (y : Int))) := by
  unfold Grid.read
  rw [index?_of_range (by omega), index?_of_range (by omega)]
  rfl

theorem rowChars_eq_map {W H : Nat} [NeZero H] (g : Grid W H) (p : Fin W) :
    rowChars g p = (List.range H).map (fun (y : Nat) => cellChar (g p (toFin H (y : Int)))) := by
  unfold rowChars
  rw [map_range_toFin (fun q => cellChar (g p q))]

/-- The text `printBoard` builds, for boards of any extent that is an `int`: it
returns, and the text is, row by row, the row of `current`, two spaces, the row
of `next` and a newline. -/
theorem printBoard_eq {W H : Nat} [NeZero W] [NeZero H] (hW : (W : Int) < 2 ^ 63)
    (hH : (H : Int) < 2 ^ 63) (s : State W H) :
    printBoard s = some (String.mk (boardChars s)) := by
  unfold printBoard
  rw [foldlM_lines (List.range W) _ (fun (x : Nat) => lineChars s (toFin W (x : Int)))]
  · unfold boardChars
    rw [map_range_toFin (fun p => lineChars s p)]
    rfl
  · intro x hx buf
    have hx' : x < W := List.mem_range.mp hx
    have h1 := foldlM_cells (List.range H) (fun (y : Nat) => getCell s (x : Int) (y : Int))
      (fun (y : Nat) => s.cur (toFin W (x : Int)) (toFin H (y : Int)))
      (fun y hy => getCell_inRange hW hH s hx' (List.mem_range.mp hy)) buf
    have h2 := foldlM_cells (List.range H) (fun (y : Nat) => s.nxt.read (x : Int) (y : Int))
      (fun (y : Nat) => s.nxt (toFin W (x : Int)) (toFin H (y : Int)))
      (fun y hy => read_inRange s.nxt hx' (List.mem_range.mp hy))
    simp only [Option.bind_eq_bind, Option.pure_def] at h1 h2 ⊢
    rw [h1]
    simp only [Option.some_bind]
    rw [h2]
    simp only [Option.some_bind]
    congr 1
    apply String.ext
    rw [String.data_append, String.data_append]
    simp only [lineChars, rowChars_eq_map, List.append_assoc]

end Cellmata

namespace Cellmata

theorem flatten_length_const (l : List (List Char)) (k : Nat) (h : ∀ x ∈ l, x.length = k) :
    l.flatten.length = l.length * k := by
  induction l with
  | nil => simp
  | cons a l ih =>
    rw [List.flatten_cons, List.length_append, h a (List.mem_cons_self a l),
      ih (fun x hx => h x (List.mem_cons_of_mem a hx)), List.length_cons]
    ring

theorem lineChars_length {W H : Nat} (s : State W H) (p : Fin W) :
    (lineChars s p).length = 2 * H + 3 := by
  simp [lineChars, rowChars]
  omega

theorem boardChars_length {W H : Nat} (s : State W H) :
    (boardChars s).length = W * (2 * H + 3) := by
  unfold boardChars
  rw [flatten_length_const _ (2 * H + 3), List.length_ofFn]
  intro x hx
  rw [List.mem_ofFn] at hx
  obtain ⟨p, rfl⟩ := hx
  exact lineChars_length s p

theorem plainBoardChars_length {W H : Nat} (s : State W H) :
    (plainBoardChars s).length = W * (H + 1) := by
  unfold plainBoardChars
  rw [flatten_length_const _ (H + 1), List.length_ofFn]
  intro x hx
  rw [List.mem_ofFn] at hx
  obtain ⟨p, rfl⟩ := hx
  simp [plainLineChars, rowChars]

theorem cellChar_cases (b : Bool) : cellChar b = '0' ∨ cellChar b = '1' := by
  cases b
  · exact Or.inl rfl
  · exact Or.inr rfl

theorem boardChars_alphabet {W H : Nat} (s : State W H) (c : Char) (hc : c ∈ boardChars s) :
    c = '0' ∨ c = '1' ∨ c = ' ' ∨ c = '\n' := by
  unfold boardChars at hc
  rw [List.mem_flatten] at hc
  obtain ⟨l, hl, hcl⟩ := hc
  rw [List.mem_ofFn] at hl
  obtain ⟨p, rfl⟩ := hl
  simp only [lineChars, rowChars, List.mem_append, List.mem_ofFn, List.mem_cons,
    List.mem_singleton, List.not_mem_nil, or_false, Set.mem_range] at hcl
  rcases hcl with ((⟨q, rfl⟩ | h | h) | ⟨q, rfl⟩) | h
  · rcases cellChar_cases (s.cur p q) with h | h
    · exact Or.inl h
    · exact Or.inr (Or.inl h)
  · exact Or.inr (Or.inr (Or.inl h))
  · exact Or.inr (Or.inr (Or.inl h))
  · rcases cellChar_cases (s.nxt p q) with h | h
    · exact Or.inl h
    · exact Or.inr (Or.inl h)
  · exact Or.inr (Or.inr (Or.inr h))

end Cellmata

namespace Rule30

open Cellmata

theorem boardChars_single_row (s : State WIDTH HEIGHT) : boardChars s = lineChars s 0 := by
  unfold boardChars
  show (List.ofFn (fun p : Fin 1 => lineChars s p)).flatten = lineChars s 0
  simp [List.ofFn_succ]

/-- C12: in `rule30.go`, for every state, `printBoard` returns the text made of
the 100 characters of `current[0]` (`'1'` for `true`, `'0'` for `false`), then
exactly two spaces, then the 100 characters of `next[0]` rendered the same way,
then one newline: 203 characters. -/
theorem printBoard_line_format (s : State WIDTH HEIGHT) :
    ∃ out, printBoard s = some out ∧
      out.data =
        List.ofFn (fun q : Fin HEIGHT => if s.cur 0 q then '1' else '0') ++ [' ', ' '] ++
          List.ofFn (fun q : Fin HEIGHT => if s.nxt 0 q then '1' else '0') ++ ['\n'] ∧
      out.length = 203 := by
  refine ⟨_, printBoard_eq rule30_width_lt rule30_height_lt s, ?_, ?_⟩
  · show boardChars s = _
    rw [boardChars_single_row]
    rfl
  · show (boardChars s).length = 203
    rw [boardChars_length]
    rfl

end Rule30

namespace Life

open Cellmata

/-- C13: with `current` the seed of `single.go` and `next` all dead, the text
`printBoard` builds is not the ten lines of ten characters of `current` each
followed by a newline, which is what a printer of the current board writes:
every line also carries two spaces and the row of `next`, so the text has 230
characters, not 110. -/
theorem printBoard_not_current_only :
    ¬ ∃ out, printBoard (stateOf (gridOf [(4, 3), (4, 4), (4, 5)]) : State WIDTH HEIGHT) =
          some out ∧
        out.data =
          (List.ofFn (fun p : Fin WIDTH =>
            List.ofFn (fun q : Fin HEIGHT =>
              if (stateOf (gridOf [(4, 3), (4, 4), (4, 5)]) : State WIDTH HEIGHT).cur p q
                then '1' else '0') ++ ['\n'])).flatten := by
  rintro ⟨out, hout, hdata⟩
  rw [printBoard_eq width_lt height_lt] at hout
  have hlen := congrArg List.length hdata
  rw [← Option.some.inj hout] at hlen
  have h1 : (boardChars (stateOf (gridOf [(4, 3), (4, 4), (4, 5)]) :
      State WIDTH HEIGHT)).length = 230 := by
    rw [boardChars_length]
    rfl
  have h2 := plainBoardChars_length
    (stateOf (gridOf [(4, 3), (4, 4), (4, 5)]) : State WIDTH HEIGHT)
  have h3 : WIDTH * (HEIGHT + 1) = 110 := rfl
  rw [h3] at h2
  change (boardChars _).length = (plainBoardChars _).length at hlen
  omega

/-- The text that `printBoard` of `single.go` builds, for every state: 10
lines, one per first-axis index `x`, each being the 10 characters of row `x` of
`current` (`'1'` alive, `'0'` dead), two spaces, the 10 characters of row `x` of
`next` and a newline; 230 characters, each of them `'0'`, `'1'`, a space or a
newline. -/
theorem printBoard_both_boards (s : State WIDTH HEIGHT) :
    ∃ out, printBoard s = some out ∧
      out.data =
        (List.ofFn (fun p : Fin WIDTH =>
          List.ofFn (fun q : Fin HEIGHT => if s.cur p q then '1' else '0') ++ [' ', ' '] ++
            List.ofFn (fun q : Fin HEIGHT => if s.nxt p q then '1' else '0') ++
            ['\n'])).flatten ∧
      out.length = 230 ∧
      ∀ c ∈ out.data, c = '0' ∨ c = '1' ∨ c = ' ' ∨ c = '\n' := by
  refine ⟨_, printBoard_eq width_lt height_lt s, rfl, ?_, ?_⟩
  · show (boardChars s).length = 230
    rw [boardChars_length]
    rfl
  · intro c hc
    exact boardChars_alphabet s c hc

end Life
